import Mathlib

/-!
# Verification of the pass bundle assembly and signing pipeline

Shallow embedding of the `Pass` class of `src/pass.ts` (constructor, builder
methods, `_patch`, `generate`) together with the parts of the model parser
(`src/parser.ts`) the claims need.  JavaScript objects are embedded as
association lists preserving insertion order (`objSet` keeps the position of
an existing key and replaces its value, exactly like a JS property write);
file contents (`Buffer`s) are either raw byte strings or structured JSON
documents produced by `JSON.stringify`.

Modules of the repository that are not under `src/` (the Joi schema
declarations, `utils.ts`, `fieldsArray.ts`, `signature.ts`) are modelled from
the specification; every such definition carries a doc comment starting with
`Modelled from the spec:`.  The SHA-1 hex digest of `node-forge` and the
PKCS#7 signature are external collaborators (spec §1, §4.5, §4.6) and are
passed to `generate` as opaque function parameters `hash` and `sign`.
-/

set_option maxRecDepth 10000

/-- A JSON value as produced by `JSON.parse`, extended with `undef` for the
JavaScript `undefined` value (which key validation can store into a property
bag, see `validatePassCoreKeys`). -/
inductive JsonValue where
  | null
  | undef
  | bool (b : Bool)
  | num (n : Int)
  | str (s : String)
  | arr (elems : List JsonValue)
  | obj (fields : List (String × JsonValue))

/-- JavaScript truthiness of a JSON value. -/
def JsonValue.truthy : JsonValue → Bool
  | .null => false
  | .undef => false
  | .bool b => b
  | .num n => n != 0
  | .str s => s != ""
  | .arr _ => true
  | .obj _ => true

/-- A JS object with values in `α`: an association list in insertion order. -/
abbrev ObjMap (α : Type) := List (String × α)

/-- A JS object holding JSON values (e.g. the parsed `pass.json`). -/
abbrev Obj := ObjMap JsonValue

/-- Property read: the first (and in a real JS object, only) binding wins. -/
def objLookup {α : Type} : ObjMap α → String → Option α
  | [], _ => none
  | e :: es, k => if e.1 = k then some e.2 else objLookup es k

/-- Property write: an existing key keeps its position and gets the new
value, a new key is appended — JS object insertion-order semantics. -/
def objSet {α : Type} : ObjMap α → String → α → ObjMap α
  | [], k, v => [(k, v)]
  | e :: es, k, v => if e.1 = k then (k, v) :: es else e :: objSet es k v

/-- The `delete` operator: removes the binding of a key. -/
def objDelete {α : Type} : ObjMap α → String → ObjMap α
  | [], _ => []
  | e :: es, k => if e.1 = k then objDelete es k else e :: objDelete es k

/-- `Object.keys`. -/
def objKeys {α : Type} (o : ObjMap α) : List String :=
  o.map Prod.fst

/-- `Object.assign(a, b)` / the spread `{...a, ...b}`. -/
def objMerge {α : Type} (a b : ObjMap α) : ObjMap α :=
  b.foldl (fun acc e => objSet acc e.1 e.2) a

@[simp] theorem objLookup_nil {α : Type} (k : String) :
    objLookup ([] : ObjMap α) k = none := rfl

theorem objLookup_cons {α : Type} (e : String × α) (es : ObjMap α) (k : String) :
    objLookup (e :: es) k = if e.1 = k then some e.2 else objLookup es k := rfl

theorem objLookup_objSet {α : Type} (o : ObjMap α) (k k' : String) (v : α) :
    objLookup (objSet o k v) k' = if k' = k then some v else objLookup o k' := by
  induction o with
  | nil =>
      rcases eq_or_ne k' k with h | h
      · subst h; simp [objSet, objLookup]
      · simp [objSet, objLookup, Ne.symm h, h]
  | cons e es ih =>
      rcases eq_or_ne e.1 k with hek | hek
      · rcases eq_or_ne k' k with h | h
        · subst h; simp [objSet, objLookup, hek]
        · have hek' : e.1 ≠ k' := by rw [hek]; exact Ne.symm h
          simp [objSet, objLookup, hek, hek', Ne.symm h, h]
      · simp only [objSet, if_neg hek, objLookup_cons, ih]
        rcases eq_or_ne e.1 k' with he | he
        · have hne : k' ≠ k := fun hh => hek (he.trans hh)
          simp [he, hne]
        · simp [he]

@[simp] theorem objLookup_objSet_self {α : Type} (o : ObjMap α) (k : String) (v : α) :
    objLookup (objSet o k v) k = some v := by
  simp [objLookup_objSet]

theorem objLookup_objSet_ne {α : Type} (o : ObjMap α) {k k' : String} (v : α)
    (h : k' ≠ k) : objLookup (objSet o k v) k' = objLookup o k' := by
  simp [objLookup_objSet, h]

theorem objLookup_objDelete {α : Type} (o : ObjMap α) (k k' : String) :
    objLookup (objDelete o k) k' = if k' = k then none else objLookup o k' := by
  induction o with
  | nil => simp [objDelete, objLookup]
  | cons e es ih =>
      rcases eq_or_ne e.1 k with hek | hek
      · rcases eq_or_ne k' k with h | h
        · subst h
          simp [objDelete, hek, ih]
        · have hek' : e.1 ≠ k' := by rw [hek]; exact Ne.symm h
          simp [objDelete, objLookup, hek, hek', ih, h, Ne.symm h]
      · simp only [objDelete, if_neg hek, objLookup_cons, ih]
        rcases eq_or_ne e.1 k' with he | he
        · have hne : k' ≠ k := fun hh => hek (he.trans hh)
          simp [he, hne]
        · simp [he]

theorem objDelete_sublist {α : Type} (o : ObjMap α) (k : String) :
    List.Sublist (objDelete o k) o := by
  induction o with
  | nil => simp [objDelete]
  | cons e es ih =>
      rcases eq_or_ne e.1 k with hek | hek
      · simpa [objDelete, hek] using ih.cons e
      · simpa [objDelete, hek] using ih.cons₂ e

theorem mem_objKeys_objDelete {α : Type} (o : ObjMap α) (k k' : String) :
    k' ∈ objKeys (objDelete o k) ↔ k' ∈ objKeys o ∧ k' ≠ k := by
  induction o with
  | nil => simp [objDelete, objKeys]
  | cons e es ih =>
      rcases eq_or_ne e.1 k with hek | hek
      · subst hek
        simp only [objDelete, eq_self_iff_true, if_true, objKeys, List.map_cons,
          List.mem_cons] at ih ⊢
        rw [ih]
        constructor
        · rintro ⟨hm, hn⟩; exact ⟨Or.inr hm, hn⟩
        · rintro ⟨(rfl | hm), hn⟩
          · exact absurd rfl hn
          · exact ⟨hm, hn⟩
      · simp only [objDelete, if_neg hek, objKeys, List.map_cons, List.mem_cons] at ih ⊢
        rw [ih]
        constructor
        · rintro (rfl | ⟨hm, hn⟩)
          · exact ⟨Or.inl rfl, hek⟩
          · exact ⟨Or.inr hm, hn⟩
        · rintro ⟨(rfl | hm), hn⟩
          · exact Or.inl rfl
          · exact Or.inr ⟨hm, hn⟩

theorem mem_objKeys_objSet {α : Type} (o : ObjMap α) (k k' : String) (v : α) :
    k' ∈ objKeys (objSet o k v) ↔ k' ∈ objKeys o ∨ k' = k := by
  induction o with
  | nil => simp [objSet, objKeys]
  | cons e es ih =>
      rcases eq_or_ne e.1 k with hek | hek
      · subst hek
        simp only [objSet, eq_self_iff_true, if_true, objKeys, List.map_cons, List.mem_cons]
        constructor
        · rintro (h | h)
          · exact Or.inr h
          · exact Or.inl (Or.inr h)
        · rintro ((h | h) | h)
          · exact Or.inl h
          · exact Or.inr h
          · exact Or.inl h
      · simp only [objSet, if_neg hek, objKeys, List.map_cons, List.mem_cons] at ih ⊢
        rw [ih]
        tauto

theorem objKeys_objSet_of_mem {α : Type} (o : ObjMap α) (k : String) (v : α)
    (h : k ∈ objKeys o) : objKeys (objSet o k v) = objKeys o := by
  induction o with
  | nil => simp [objKeys] at h
  | cons e es ih =>
      rcases eq_or_ne e.1 k with hek | hek
      · simp [objSet, hek, objKeys]
      · simp only [objKeys, List.map_cons, List.mem_cons] at h
        rcases h with h | h
        · exact absurd h.symm hek
        · simp [objSet, hek, objKeys]
          exact ih h

theorem objKeys_objSet_of_notMem {α : Type} (o : ObjMap α) (k : String) (v : α)
    (h : k ∉ objKeys o) : objKeys (objSet o k v) = objKeys o ++ [k] := by
  induction o with
  | nil => simp [objSet, objKeys]
  | cons e es ih =>
      simp only [objKeys, List.map_cons, List.mem_cons, not_or] at h
      simp [objSet, Ne.symm h.1, objKeys]
      exact ih h.2

theorem nodup_objKeys_objSet {α : Type} (o : ObjMap α) (k : String) (v : α)
    (h : (objKeys o).Nodup) : (objKeys (objSet o k v)).Nodup := by
  by_cases hm : k ∈ objKeys o
  · rw [objKeys_objSet_of_mem o k v hm]; exact h
  · rw [objKeys_objSet_of_notMem o k v hm]
    simp [List.nodup_append, h, hm]

theorem nodup_objKeys_objDelete {α : Type} (o : ObjMap α) (k : String)
    (h : (objKeys o).Nodup) : (objKeys (objDelete o k)).Nodup :=
  h.sublist ((objDelete_sublist o k).map Prod.fst)

/-! ## Character and string helpers (kernel-friendly, structural) -/

/-- `p` is a leading segment of `s` (character lists). -/
def listIsPre : List Char → List Char → Bool
  | [], _ => true
  | _ :: _, [] => false
  | a :: as, b :: bs => a == b && listIsPre as bs

/-- `s.startsWith(pre)` of JavaScript. -/
def strStartsWith (s pre : String) : Bool :=
  listIsPre pre.data s.data

/-- `pat` occurs somewhere inside `s` (character lists). -/
def listSub (pat : List Char) : List Char → Bool
  | [] => pat.isEmpty
  | c :: cs => listIsPre pat (c :: cs) || listSub pat cs

/-- Substring containment, the semantics of a literal-alternative regex
`test` such as the pass-type regex of the `Pass` constructor. -/
def strContains (s pat : String) : Bool :=
  listSub pat.data s.data

/-- ASCII lowercasing of one character (`String.prototype.toLowerCase` on the
ASCII barcode format names). -/
def lowerChar (c : Char) : Char :=
  if 'A' ≤ c ∧ c ≤ 'Z' then Char.ofNat (c.toNat + 32) else c

/-- ASCII `toLowerCase`. -/
def strToLower (s : String) : String :=
  String.mk (s.data.map lowerChar)

/-! ## Buffers -/

/-- A Node `Buffer`: either raw bytes (template files, rendered string
tables) or a structured JSON document (the result of
`Buffer.from(JSON.stringify(...))`).  No claim observes the concrete byte
rendering of a structured document, only its structure, so `JSON.parse`
recovers the document exactly. -/
inductive Buffer where
  | raw (bytes : String)
  | json (v : JsonValue)

instance : Inhabited Buffer := ⟨.raw ""⟩

/-- Byte view of a buffer; structured documents render through
`JSON.stringify` (no theorem depends on the rendered text). -/
def escChar (c : Char) : String :=
  if c = '"' then "\\\"" else if c = '\\' then "\\\\" else String.mk [c]

/-- JSON string escaping used by the serializer. -/
def jsonEscape (s : String) : String :=
  String.join (s.data.map escChar)

mutual

/-- `JSON.stringify` of a JSON document. -/
def jsonStr : JsonValue → String
  | .null => "null"
  | .undef => "null"
  | .bool b => cond b "true" "false"
  | .num n => toString n
  | .str s => "\"" ++ jsonEscape s ++ "\""
  | .arr l => "[" ++ jsonStrList l ++ "]"
  | .obj l => "\x7b" ++ jsonStrFields l ++ "\x7d"

/-- Serialization of an array body. -/
def jsonStrList : List JsonValue → String
  | [] => ""
  | [x] => jsonStr x
  | x :: y :: xs => jsonStr x ++ "," ++ jsonStrList (y :: xs)

/-- Serialization of an object body. -/
def jsonStrFields : List (String × JsonValue) → String
  | [] => ""
  | [(k, v)] => "\"" ++ jsonEscape k ++ "\":" ++ jsonStr v
  | (k, v) :: e :: es => "\"" ++ jsonEscape k ++ "\":" ++ jsonStr v ++ "," ++ jsonStrFields (e :: es)

end

/-- The bytes of a buffer. -/
def Buffer.bytes : Buffer → String
  | .raw s => s
  | .json v => jsonStr v

/-- `Buffer.concat` (in `generate` it is only ever applied to raw
string-table buffers). -/
def Buffer.concat (a b : Buffer) : Buffer :=
  .raw (a.bytes ++ b.bytes)

/-- `JSON.parse` of a buffer.  A structured buffer parses back to its
document; a raw byte buffer is treated as unparsable (in the pipeline the
`pass.json` buffer always carries a structured document). -/
def parseJson : Buffer → Option JsonValue
  | .json v => some v
  | .raw _ => none

/-- A bundle: file name to buffer, in insertion order (`BundleUnit` of
`schemas`). -/
abbrev BundleUnit := ObjMap Buffer

/-- The split model produced by the parser (`PartitionedBundle` of
`schemas`): root files plus per-language-folder files. -/
structure PartitionedBundle where
  bundle : BundleUnit
  l10nBundle : ObjMap BundleUnit

/-! ## Utilities modelled from the spec (the `utils.ts` / `schemas` modules
are not under `src/`) -/

/-- One rendered string-table line.  Modelled from the spec (§4.3): the
stable encoding is one `key = "value";` line per staged pair. -/
def stringsLine (k v : String) : String :=
  k ++ " = \"" ++ v ++ "\";"

/-- Newline joining of rendered lines. -/
def joinLines : List String → String
  | [] => ""
  | [x] => x
  | x :: y :: xs => x ++ "\n" ++ joinLines (y :: xs)

/-- Modelled from the spec: `generateStringFile` of the missing `utils.ts`
(§4.3) — renders a staged placeholder→translation mapping into string-table
bytes, one `key = "value";` line per pair; an empty mapping renders to empty
bytes. -/
def generateStringFile (translations : ObjMap String) : String :=
  joinLines (translations.map (fun e => stringsLine e.1 e.2))

/-- Modelled from the spec: `getAllFilesWithName(name, source, "startsWith")`
of the missing `utils.ts` — the names in `source` starting with `name`. -/
def getAllFilesWithName (name : String) (source : List String) : List String :=
  source.filter (fun s => strStartsWith s name)

/-- Modelled from the spec (§4.4): `deletePersonalization` of the missing
`utils.ts` — deletes the passed personalization-logo file names and the
`personalization.json` descriptor from the bundle. -/
def deletePersonalization (bundle : BundleUnit) (logosNames : List String) : BundleUnit :=
  (logosNames ++ ["personalization.json"]).foldl (fun acc n => objDelete acc n) bundle

/-- Modelled from the spec (§3, §4.1): the documented whitelist of mutable
top-level keys — the §3 examples (expiration date, voided flag, relevance
beacons/locations/date, barcodes, NFC payload) plus the three color keys
that §4.1 revalidates before serialization. -/
def overridesWhitelist : List String :=
  ["expirationDate", "voided", "beacons", "locations", "relevantDate",
   "barcodes", "nfc", "backgroundColor", "foregroundColor", "labelColor"]

/-- Modelled from the spec: `Schemas.getValidated(overrides,
OverridesSupportedOptions)` — override keys outside the whitelist are
dropped silently at validation time (ValidationDrop, non-fatal). -/
def getValidatedOverrides (overrides : Obj) : Obj :=
  overrides.filter (fun e => overridesWhitelist.contains e.1)

/-- Decimal digit test. -/
def isDigit (c : Char) : Bool :=
  '0' ≤ c && c ≤ '9'

/-- Numeric value of a digit string. -/
def natOfDigits (l : List Char) : Nat :=
  l.foldl (fun n c => n * 10 + (c.toNat - '0'.toNat)) 0

/-- Split a character list at commas. -/
def splitOnComma : List Char → List (List Char)
  | [] => [[]]
  | c :: cs =>
    let rest := splitOnComma cs
    if c = ',' then [] :: rest
    else match rest with
      | [] => [[c]]
      | g :: gs => (c :: g) :: gs

/-- One `rgb(...)` component: after discarding spaces, a non-empty digit
string whose value is at most 255. -/
def validComponent (l : List Char) : Bool :=
  let t := l.filter (fun c => c ≠ ' ')
  !t.isEmpty && t.all isDigit && natOfDigits t ≤ 255

/-- `s.endsWith(suf)`. -/
def strEndsWith (s suf : String) : Bool :=
  listIsPre suf.data.reverse s.data.reverse

/-- Modelled from the spec (§4.1): `isValidRGB` of the missing `utils.ts` —
the value is an `rgb(r, g, b)` formatted string with components in 0..255. -/
def isValidRGB (s : String) : Bool :=
  strStartsWith s "rgb(" && strEndsWith s ")" &&
    match splitOnComma ((s.data.drop 4).dropLast) with
    | [a, b, c] => validComponent a && validComponent b && validComponent c
    | _ => false

/-- `isValidRGB` applied to a JSON property value (only strings can be
RGB-formatted). -/
def isValidRGBJson : JsonValue → Bool
  | .str s => isValidRGB s
  | _ => false

/-! ## Schema validation parameters

The Joi schema declarations (`schemas` module) are not under `src/`; the
inner validity predicates are abstracted as parameters so every theorem
holds for any choice of them.  The *structure* of validation — which keys
are schema-mapped, how arrays are filtered, how overrides merge — is taken
verbatim from `src/pass.ts`. -/

/-- The abstracted schema validators: `sv name v` is
`Schemas.isValid(v, propsSchemaMap.get(name))`, `fieldValid` is
`Schemas.isValid(field, Schemas.Field)`, `transitValid` is
`Schemas.isValid(value, Schemas.TransitType)`. -/
structure Validators where
  sv : String → JsonValue → Bool
  fieldValid : JsonValue → Bool
  transitValid : String → Bool

/-- The permissive validator instantiation used by concrete witnesses. -/
def acceptAll : Validators :=
  { sv := fun _ _ => true, fieldValid := fun _ => true, transitValid := fun _ => true }

/-! ## The Pass class (`src/pass.ts`) -/

/-- The thrown errors of `pass.ts` (`formatMessage(ERROR.*)`) together with
the runtime `TypeError`/`SyntaxError` cases and the spec's `DuplicateKey`
condition. -/
inductive PassError where
  | requirValidFailed
  | passfileValidationFailed
  | ovvKeysBadformat
  | noPassType
  | typeError
  | syntaxError
  | trstypeRequired
  | duplicateKey
deriving DecidableEq

/-- The categories matched by the pass-type regex of the constructor. -/
def passTypes : List String :=
  ["boardingPass", "eventTicket", "coupon", "generic", "storeCard"]

/-- `/(boardingPass|eventTicket|coupon|generic|storeCard)/.test(key)`:
substring containment of one of the category names. -/
def matchesPassType (k : String) : Bool :=
  passTypes.any (fun t => strContains k t)

/-- The fields of a JSON object (`[]` for non-objects: property enumeration
of a primitive yields nothing a category regex can match). -/
def jsonFields : JsonValue → Obj
  | .obj o => o
  | _ => []

/-- `Object.keys` of a parsed JSON document. -/
def jsonKeys (v : JsonValue) : List String :=
  objKeys (jsonFields v)

/-- `Object.keys(x).length` of a JSON value, as used by `getValidInArray`'s
non-emptiness test (arrays and strings enumerate their indices). -/
def jsonKeysLen : JsonValue → Nat
  | .obj o => o.length
  | .arr l => l.length
  | .str s => s.length
  | _ => 0

/-- The keys of `propsSchemaMap` (`src/pass.ts` lines 26–32). -/
def schemaKeys : List String :=
  ["barcodes", "barcode", "beacons", "locations", "nfc"]

/-- `getValidInArray` (`src/pass.ts` lines 681–689): keep elements that are
non-empty and pass schema validation. -/
def getValidInArray (sv : String → JsonValue → Bool) (key : String)
    (l : List JsonValue) : List JsonValue :=
  l.filter (fun v => jsonKeysLen v != 0 && sv key v)

/-- The validated value of one template key: schema-mapped keys are
validated (arrays element-wise, scalars to `undefined` on failure), unknown
keys pass through. -/
def validateValue (V : Validators) (key : String) (v : JsonValue) : JsonValue :=
  if schemaKeys.contains key then
    match v with
    | .arr l => .arr (getValidInArray V.sv key l)
    | v => if V.sv key v then v else .undef
  else v

/-- One step of the `validatedPassKeys` reduce: the category key is
skipped, every other key is written with its validated value. -/
def validateStep (V : Validators) (ty : String) (acc : Obj) (e : String × JsonValue) : Obj :=
  if e.1 = ty then acc else objSet acc e.1 (validateValue V e.1 e.2)

/-- The `validatedPassKeys` reduce of the constructor (`src/pass.ts` lines
101–142). -/
def validatePassCoreKeys (V : Validators) (ty : String) (core : Obj) : Obj :=
  core.foldl (validateStep V ty) []

/-- The key of a field record (`field.key` of the Field schema). -/
def fieldKey (f : JsonValue) : String :=
  match f with
  | .obj o =>
    match objLookup o "key" with
    | some (.str s) => s
    | _ => ""
  | _ => ""

/-- Modelled from the spec (§3, §4.2): the FieldsArray shared key pool —
fields whose key is already pooled are not added again (global
key-uniqueness across the five slots of one pass instance). -/
def buildSlotFold (pool : List String) (items : List JsonValue) :
    List String × List JsonValue :=
  items.foldl (fun acc f =>
    if acc.1.contains (fieldKey f) then acc
    else (acc.1 ++ [fieldKey f], acc.2 ++ [f])) (pool, [])

/-- The five field slots, in the order of `Pass._fields`. -/
def fieldsNames : List String :=
  ["primaryFields", "secondaryFields", "auxiliaryFields", "backFields", "headerFields"]

/-- `(this.passCore[this.type][fieldName] || [])` — a missing or falsy slot
is an empty list, a truthy non-array slot value makes the constructor's
`.filter` call throw a `TypeError`. -/
def slotItems (subFields : Obj) (name : String) : Except PassError (List JsonValue) :=
  match objLookup subFields name with
  | none => .ok []
  | some v =>
    if v.truthy then
      match v with
      | .arr l => .ok l
      | _ => .error .typeError
    else .ok []

/-- Construction of the five `FieldsArray` slots from the template
(`src/pass.ts` lines 158–165), threading the shared key pool. -/
def buildSlots (V : Validators) (subFields : Obj) :
    List String → List String →
    Except PassError (List String × ObjMap (List JsonValue))
  | [], pool => .ok (pool, [])
  | n :: ns, pool =>
    match slotItems subFields n with
    | .error e => .error e
    | .ok items =>
      match buildSlots V subFields ns (buildSlotFold pool (items.filter V.fieldValid)).1 with
      | .error e => .error e
      | .ok out =>
        .ok (out.1, (n, (buildSlotFold pool (items.filter V.fieldValid)).2) :: out.2)

/-- The state of a `Pass` instance.  `transitTy` is the symbol-keyed
`[transitType]` field (a string, `""` when unresolved), `passProps` the
symbol-keyed `[passProps]` bag, `slots` the five `FieldsArray`s in
`_fields` order with `fieldsKeys` their shared key pool.  The signing
certificates are owned by the opaque `sign` parameter of `generate`. -/
structure Pass where
  bundle : BundleUnit
  l10nBundles : ObjMap BundleUnit
  passProps : Obj
  type : String
  fieldsKeys : List String
  slots : ObjMap (List JsonValue)
  transitTy : String
  l10nTranslations : ObjMap (ObjMap String)

instance : Inhabited Pass :=
  ⟨{ bundle := [], l10nBundles := [], passProps := [], type := "",
     fieldsKeys := [], slots := [], transitTy := "", l10nTranslations := [] }⟩

/-- The `Pass` constructor (`src/pass.ts` lines 61–166).  The
`Schemas.isValid(options, PassInstance)` shape check is enforced by the
host types; `this.bundle = { ...options.model.bundle }` copies the root
bundle while `this.l10nBundles = options.model.l10nBundle` shares the
localization bundle with the model (observable in `generate`'s mutation).
The template's transit subtype is modelled as a string (its schema type). -/
def templateTransit (ty : String) (sub : JsonValue) : String :=
  if ty = "boardingPass" then
    match objLookup (jsonFields sub) "transitType" with
    | some (.str s) => s
    | _ => ""
  else ""

/-- The merged property bag of the constructor (`src/pass.ts` lines
144–147): validated template keys first, valid overrides last. -/
def mergedProps (V : Validators) (ty : String) (core : JsonValue) (overrides : Obj) : Obj :=
  objMerge (validatePassCoreKeys V ty (jsonFields core)) (getValidatedOverrides overrides)

def mkPass (V : Validators) (model : PartitionedBundle) (overrides : Obj) :
    Except PassError Pass :=
  match objLookup model.bundle "pass.json" with
  | none => .error .typeError
  | some buf =>
  match parseJson buf with
  | none => .error .passfileValidationFailed
  | some core =>
  match (jsonKeys core).find? matchesPassType with
  | none => .error .noPassType
  | some ty =>
    match objLookup (jsonFields core) ty with
    | some .null => .error .typeError
    | some .undef => .error .typeError
    | none => .error .typeError
    | some sub =>
      match buildSlots V (jsonFields sub) fieldsNames [] with
      | .error e => .error e
      | .ok (pool, slots) =>
        .ok { bundle := model.bundle, l10nBundles := model.l10nBundle,
              passProps := mergedProps V ty core overrides, type := ty, fieldsKeys := pool,
              slots := slots, transitTy := templateTransit ty sub, l10nTranslations := [] }

/-- `localize(lang, translations)` (`src/pass.ts` lines 312–325): a truthy
language code stages (replacing) the mapping for that language;
`translations || {}` turns an omitted mapping into an empty one. -/
def Pass.localize (p : Pass) (lang : String) (translations : Option (ObjMap String)) : Pass :=
  if lang = "" then p
  else { p with l10nTranslations := objSet p.l10nTranslations lang (translations.getD []) }

/-- The `transitType` setter (`src/pass.ts` lines 641–649): an invalid value
is logged and leaves the stored value (`this[transitType] || ""`, the
identity on the string state). -/
def Pass.setTransitType (V : Validators) (p : Pass) (value : String) : Pass :=
  if V.transitValid value then { p with transitTy := value } else p

/-- The four formats autogenerated by `barcodesFromUncompleteData`
(`src/pass.ts` lines 669–675). -/
def barcodeFormats : List String :=
  ["PKBarcodeFormatQR", "PKBarcodeFormatPDF417", "PKBarcodeFormatAztec", "PKBarcodeFormatCode128"]

/-- Modelled from the spec: `Schemas.getValidated({format, message},
Schemas.Barcode)` — validation of an autogenerated pair returns the
structure with its format and message (schema defaults add nothing any
claim observes). -/
def getValidatedBarcode (format message : String) : JsonValue :=
  .obj [("format", .str format), ("message", .str message)]

/-- `barcodesFromUncompleteData` (`src/pass.ts` lines 664–679). -/
def barcodesFromUncompleteData (message : String) : List JsonValue :=
  if message = "" then []
  else barcodeFormats.map (fun f => getValidatedBarcode f message)

/-- The message-string overload of `barcodes()` (`src/pass.ts` lines
443–459): autogenerate the four standard barcode structures. -/
def Pass.barcodes (p : Pass) (message : String) : Pass :=
  let autogen := barcodesFromUncompleteData message
  if autogen.isEmpty then p
  else { p with passProps := objSet p.passProps "barcodes" (.arr autogen) }

/-- The format name of a barcode structure (`b.format`). -/
def barcodeFormatOf (b : JsonValue) : String :=
  match b with
  | .obj o =>
    match objLookup o "format" with
    | some (.str s) => s
    | _ => ""
  | _ => ""

/-- `barcode(chosenFormat)` (`src/pass.ts` lines 511–546): `null` clears the
single-barcode field; `PKBarcodeFormatCode128` is explicitly unsupported;
otherwise the first entry of `barcodes` whose lowercased format contains the
lowercased requested format is selected. -/
def Pass.barcode (p : Pass) (chosenFormat : Option String) : Pass :=
  match chosenFormat with
  | none => { p with passProps := objDelete p.passProps "barcode" }
  | some fmt =>
    if fmt = "PKBarcodeFormatCode128" then p
    else
      match objLookup p.passProps "barcodes" with
      | some (.arr bcs) =>
        if bcs.isEmpty then p
        else
          match bcs.find? (fun b =>
              strContains (strToLower (barcodeFormatOf b)) (strToLower fmt)) with
          | some b => { p with passProps := objSet p.passProps "barcode" b }
          | none => p
      | _ => p

/-- Modelled from the spec (§4.2): `FieldsArray` insertion — fails with the
`DuplicateKey` condition when the field's key is already in the shared key
pool of the five slots of this instance; otherwise appends the field to the
target slot and registers its key. -/
def Pass.insertField (p : Pass) (slot : String) (f : JsonValue) : Except PassError Pass :=
  if p.fieldsKeys.contains (fieldKey f) then .error .duplicateKey
  else .ok { p with
    fieldsKeys := p.fieldsKeys ++ [fieldKey f],
    slots := p.slots.map (fun s => if s.1 = slot then (s.1, s.2 ++ [f]) else s) }

/-- The color keys revalidated by `_patch` (`src/pass.ts` lines 612–616). -/
def passColors : List String :=
  ["backgroundColor", "foregroundColor", "labelColor"]

/-- One step of the color filter: a truthy non-RGB value is deleted. -/
def colorStep (acc : Obj) (c : String) : Obj :=
  match objLookup acc c with
  | some v => if v.truthy && !isValidRGBJson v then objDelete acc c else acc
  | none => acc

/-- The color revalidation of `_patch` (`src/pass.ts` lines 618–623):
`passColors.filter(v => props[v] && !isValidRGB(props[v])).forEach(delete)`. -/
def filterColors (props : Obj) : Obj :=
  passColors.foldl colorStep props

/-- The property overlay of `_patch` (`src/pass.ts` lines 605–626): when the
property bag is non-empty, revalidate the color keys (deleting invalid ones
from the bag) and `Object.assign` the result onto the parsed file.  Returns
the (possibly pruned) bag together with the overlaid file. -/
def patchOverlay (props : Obj) (pf₀ : Obj) : Obj × Obj :=
  if props.isEmpty then (props, pf₀)
  else (filterColors props, objMerge pf₀ (filterColors props))

/-- The field-slot assignment of `_patch` (`src/pass.ts` lines 628–630):
`passFile[this.type][field] = this[field]` for the five slots in order. -/
def writeSlots (slots : ObjMap (List JsonValue)) (tsub : Obj) : Obj :=
  slots.foldl (fun acc s => objSet acc s.1 (.arr s.2)) tsub

/-- `Pass._patch` (`src/pass.ts` lines 600–639): parse the `pass.json`
buffer, overlay the (color-revalidated) property bag when non-empty, write
the five field slots into the category sub-record, require a transit
subtype for a boarding pass, write `transitType`, and reserialize.
Returns the new buffer together with the possibly color-pruned property
bag (the source mutates `this[passProps]` in place). -/
def Pass._patch (p : Pass) : Except PassError (Buffer × Obj) :=
  match objLookup p.bundle "pass.json" with
  | none => .error .typeError
  | some buf =>
  match parseJson buf with
  | none => .error .syntaxError
  | some v =>
    match objLookup (patchOverlay p.passProps (jsonFields v)).2 p.type with
    | some (.obj tsub) =>
      if p.type = "boardingPass" ∧ p.transitTy = "" then .error .trstypeRequired
      else
        .ok (.json (.obj (objSet (patchOverlay p.passProps (jsonFields v)).2 p.type
          (.obj (objSet (writeSlots p.slots tsub) "transitType" (.str p.transitTy))))),
          (patchOverlay p.passProps (jsonFields v)).1)
    | _ => .error .typeError

/-- `!this[passProps].nfc` — the personalization-pruning guard of
`generate`. -/
def nfcAbsent (props : Obj) : Bool :=
  match objLookup props "nfc" with
  | some v => !v.truthy
  | none => true

/-- The string-table merge of one staged language (`src/pass.ts` lines
213–231): a non-empty rendered table is appended after any pre-existing
`pass.strings` of that language folder (`??=` creates the folder when
missing); an empty rendered table leaves the localization bundle alone. -/
def mergeStringsStep (lb : ObjMap BundleUnit) (lang : String) (t : ObjMap String) :
    ObjMap BundleUnit :=
  if generateStringFile t = "" then lb
  else
    objSet lb (lang ++ ".lproj")
      (objSet ((objLookup lb (lang ++ ".lproj")).getD []) "pass.strings"
        (Buffer.concat
          ((objLookup ((objLookup lb (lang ++ ".lproj")).getD []) "pass.strings").getD (.raw ""))
          (.raw (generateStringFile t))))

/-- The flattening of one language folder into the final bundle
(`src/pass.ts` lines 248–261): each file is assigned under the
forward-slash path `<dir>/<file>` (`path.join` with the Windows-backslash
replacement). -/
def flattenUnit (dir : String) (unit : BundleUnit) (fb : BundleUnit) : BundleUnit :=
  unit.foldl (fun acc e => objSet acc (dir ++ "/" ++ e.1) e.2) fb

/-- The localization loop of `generate` (`src/pass.ts` lines 206–262),
already given the staged language list in iteration order (the source walks
`Object.keys(this.l10nTranslations)` backwards): merge the rendered string
table, then skip a language whose folder is missing or empty after merging,
otherwise flatten its files into the final bundle. -/
def l10nLoop : ObjMap BundleUnit → BundleUnit → ObjMap (ObjMap String) →
    BundleUnit × ObjMap BundleUnit
  | lb, fb, [] => (fb, lb)
  | lb, fb, (lang, t) :: rest =>
    match objLookup (mergeStringsStep lb lang t) (lang ++ ".lproj") with
    | none => l10nLoop (mergeStringsStep lb lang t) fb rest
    | some unit =>
      if unit.isEmpty then l10nLoop (mergeStringsStep lb lang t) fb rest
      else l10nLoop (mergeStringsStep lb lang t) (flattenUnit (lang ++ ".lproj") unit fb) rest

/-- The bundle-assembly prefix of `generate` (`src/pass.ts` lines 175–262):
store the patched `pass.json` back into the instance bundle, prune
personalization artifacts of a non-NFC pass, and flatten the staged
localizations.  Returns the final file set together with the mutated
instance. -/
def bundleAfterPatch (p : Pass) (pr : Buffer × Obj) : BundleUnit :=
  objSet p.bundle "pass.json" pr.1

/-- The personalization pruning of `generate` (`src/pass.ts` lines
183–198): a non-NFC pass whose bundle still holds `personalization.json`
loses the descriptor and every `personalizationLogo*` file. -/
def bundleAfterPrune (p : Pass) (pr : Buffer × Obj) : BundleUnit :=
  if nfcAbsent pr.2 && (objKeys (bundleAfterPatch p pr)).contains "personalization.json" then
    deletePersonalization (bundleAfterPatch p pr)
      (getAllFilesWithName "personalizationLogo" (objKeys (bundleAfterPatch p pr)))
  else bundleAfterPatch p pr

def Pass.finalBundle (p : Pass) : Except PassError (BundleUnit × Pass) :=
  match p._patch with
  | .error e => .error e
  | .ok pr =>
    .ok ((l10nLoop p.l10nBundles (bundleAfterPrune p pr) p.l10nTranslations.reverse).1,
      { p with bundle := bundleAfterPrune p pr,
               l10nBundles :=
                 (l10nLoop p.l10nBundles (bundleAfterPrune p pr) p.l10nTranslations.reverse).2,
               passProps := pr.2 })

/-- The manifest reduce of `generate` (`src/pass.ts` lines 269–282): one
digest per archived file, built with object-spread updates. -/
def manifestFold (hash : Buffer → String) (fb : BundleUnit) : ObjMap String :=
  fb.foldl (fun acc e => objSet acc e.1 (hash e.2)) []

/-- `Buffer.from(JSON.stringify(manifest))`. -/
def manifestJson (m : ObjMap String) : Buffer :=
  .json (.obj (m.map (fun e => (e.1, .str e.2))))

/-- `Pass.generate` (`src/pass.ts` lines 175–297).  `hash` is the
`node-forge` SHA-1 lowercase hex digest and `sign` the PKCS#7 detached
signature over the manifest (`signature.ts`), both external collaborators
passed opaquely.  The returned list is the archive contents in insertion
order: every final bundle file, then `signature`, then `manifest.json`. -/
def Pass.generate (hash : Buffer → String) (sign : ObjMap String → Buffer) (p : Pass) :
    Except PassError (BundleUnit × Pass) :=
  match p.finalBundle with
  | .error e => .error e
  | .ok out =>
    let manifest := manifestFold hash out.1
    .ok (out.1 ++ [("signature", sign manifest), ("manifest.json", manifestJson manifest)],
      out.2)

/-- The pre-existing string-table buffer of a language folder
(`languageBundleUnit["pass.strings"] || Buffer.alloc(0)` over the template's
localization bundle). -/
def templateStrings (lb : ObjMap BundleUnit) (dir : String) : Buffer :=
  match objLookup lb dir with
  | some unit => (objLookup unit "pass.strings").getD (.raw "")
  | none => .raw ""

/-! ## Lemmas about object folds -/

@[simp] theorem objKeys_nil {α : Type} : objKeys ([] : ObjMap α) = [] := rfl

@[simp] theorem objKeys_cons {α : Type} (e : String × α) (es : ObjMap α) :
    objKeys (e :: es) = e.1 :: objKeys es := rfl

theorem foldl_objSet_lookup_preserve {α β : Type} (kf : String → String) (vf : β → α)
    (k' : String) :
    ∀ (l : List (String × β)) (acc : ObjMap α),
      (∀ e ∈ l, k' ≠ kf e.1) →
      objLookup (l.foldl (fun a e => objSet a (kf e.1) (vf e.2)) acc) k' = objLookup acc k'
  | [], _, _ => rfl
  | e :: es, acc, h => by
      rw [List.foldl_cons,
        foldl_objSet_lookup_preserve kf vf k' es _
          (fun e' he' => h e' (List.mem_cons_of_mem e he'))]
      exact objLookup_objSet_ne _ _ (h e (List.mem_cons_self e es))

theorem foldl_objSet_lookup_mem {α β : Type} (kf : String → String) (vf : β → α)
    (hinj : ∀ a b, kf a = kf b → a = b) :
    ∀ (l : List (String × β)) (acc : ObjMap α) (k : String) (v : β),
      (objKeys l).Nodup → objLookup l k = some v →
      objLookup (l.foldl (fun a e => objSet a (kf e.1) (vf e.2)) acc) (kf k) = some (vf v)
  | [], _, k, v, _, hl => by simp [objLookup] at hl
  | e :: es, acc, k, v, hnd, hl => by
      rw [objKeys_cons] at hnd
      rw [List.foldl_cons]
      rcases eq_or_ne e.1 k with hek | hek
      · have hv : e.2 = v := by
          rw [objLookup_cons, if_pos hek] at hl
          exact Option.some.inj hl
        have hknotin : ∀ e' ∈ es, kf k ≠ kf e'.1 := by
          intro e' he' heq
          have hke : k = e'.1 := hinj _ _ heq
          exact (List.nodup_cons.mp hnd).1
            (hek ▸ hke ▸ List.mem_map_of_mem Prod.fst he')
        rw [foldl_objSet_lookup_preserve kf vf (kf k) es _ hknotin, hek, hv]
        exact objLookup_objSet_self _ _ _
      · have hl' : objLookup es k = some v := by
          rw [objLookup_cons, if_neg hek] at hl
          exact hl
        exact foldl_objSet_lookup_mem kf vf hinj es _ k v (List.nodup_cons.mp hnd).2 hl'

theorem nodup_foldl_objSet {α β : Type} (kf : String → String) (vf : β → α) :
    ∀ (l : List (String × β)) (acc : ObjMap α),
      (objKeys acc).Nodup →
      (objKeys (l.foldl (fun a e => objSet a (kf e.1) (vf e.2)) acc)).Nodup
  | [], _, h => h
  | e :: es, acc, h => by
      rw [List.foldl_cons]
      exact nodup_foldl_objSet kf vf es _ (nodup_objKeys_objSet _ _ _ h)

theorem mem_objKeys_foldl_objSet {α β : Type} (kf : String → String) (vf : β → α) :
    ∀ (l : List (String × β)) (acc : ObjMap α) (k' : String),
      k' ∈ objKeys (l.foldl (fun a e => objSet a (kf e.1) (vf e.2)) acc) →
      k' ∈ objKeys acc ∨ ∃ e ∈ l, k' = kf e.1
  | [], _, _, h => Or.inl h
  | e :: es, acc, k', h => by
      rw [List.foldl_cons] at h
      rcases mem_objKeys_foldl_objSet kf vf es _ k' h with h' | ⟨e', he', hk⟩
      · rcases (mem_objKeys_objSet acc (kf e.1) k' (vf e.2)).mp h' with h'' | h''
        · exact Or.inl h''
        · exact Or.inr ⟨e, List.mem_cons_self e es, h''⟩
      · exact Or.inr ⟨e', List.mem_cons_of_mem e he', hk⟩

theorem objLookup_objMerge_notMem {α : Type} (a b : ObjMap α) (k : String)
    (h : k ∉ objKeys b) : objLookup (objMerge a b) k = objLookup a k :=
  foldl_objSet_lookup_preserve (fun x => x) (fun x => x) k b a
    (fun e he heq => h (heq ▸ List.mem_map_of_mem Prod.fst he))

theorem objLookup_objMerge_mem {α : Type} (a b : ObjMap α) (k : String) (v : α)
    (hnd : (objKeys b).Nodup) (h : objLookup b k = some v) :
    objLookup (objMerge a b) k = some v :=
  foldl_objSet_lookup_mem (fun x => x) (fun x => x) (fun _ _ h => h) b a k v hnd h

theorem objLookup_manifestFold (hash : Buffer → String) (fb : BundleUnit)
    (n : String) (b : Buffer) (hnd : (objKeys fb).Nodup) (h : objLookup fb n = some b) :
    objLookup (manifestFold hash fb) n = some (hash b) :=
  foldl_objSet_lookup_mem (fun x => x) hash (fun _ _ h => h) fb [] n b hnd h

theorem objLookup_append_left {α : Type} (a b : ObjMap α) (k : String) (v : α)
    (h : objLookup a k = some v) : objLookup (a ++ b) k = some v := by
  induction a with
  | nil => simp [objLookup] at h
  | cons e es ih =>
      rw [objLookup_cons] at h
      rw [List.cons_append, objLookup_cons]
      rcases eq_or_ne e.1 k with hek | hek
      · rw [if_pos hek] at h ⊢; exact h
      · rw [if_neg hek] at h ⊢; exact ih h

/-! ## C1 — manifest integrity -/

/-- C1: for every file placed in the archive from the final merged bundle
(root files plus flattened localization files, after `pass.json` patching,
personalization pruning and string-table merging), the manifest produced by
`generate()` maps that file's archived path to the digest of exactly the
bytes archived for it; the manifest is a function of the final bundle (after
all bundle mutations) and the signature is created from that manifest —
the archive is the final files, then the signature over the manifest, then
the manifest itself. -/
theorem generate_manifest_integrity (hash : Buffer → String) (sign : ObjMap String → Buffer)
    (p : Pass) (fb : BundleUnit) (p' : Pass)
    (hfb : p.finalBundle = .ok (fb, p'))
    (hnd : (objKeys fb).Nodup) :
    Pass.generate hash sign p =
      .ok (fb ++ [("signature", sign (manifestFold hash fb)),
                  ("manifest.json", manifestJson (manifestFold hash fb))], p') ∧
    ∀ n b, objLookup fb n = some b →
      objLookup (manifestFold hash fb) n = some (hash b) := by
  constructor
  · simp [Pass.generate, hfb]
  · intro n b h
    exact objLookup_manifestFold hash fb n b hnd h

/-- The digest and signature instantiations used by concrete witnesses:
any digest function works, the theorems hold for all of them. -/
def hashW : Buffer → String := fun b => "#" ++ b.bytes

/-- Witness signing function. -/
def signW : ObjMap String → Buffer := fun _ => .raw "sig"

/-- Witness pass for C1: a store card with an icon, a localized string
table and a root file. -/
def c1Pass : Pass :=
  match mkPass acceptAll
      { bundle := [("pass.json", .json (.obj [("storeCard", .obj [])])),
                   ("icon.png", .raw "I")],
        l10nBundle := [("fr.lproj", [("pass.strings", .raw "OLD")])] } [] with
  | .ok p => Pass.localize p "fr" (some [("greeting", "bonjour")])
  | .error _ => default

/-- The final bundle of the C1 witness pass. -/
def c1FB : BundleUnit :=
  match Pass.finalBundle c1Pass with
  | .ok pr => pr.1
  | .error _ => []

/-- The mutated instance of the C1 witness pass. -/
def c1P' : Pass :=
  match Pass.finalBundle c1Pass with
  | .ok pr => pr.2
  | .error _ => default

theorem generate_manifest_integrity_witness :
    Pass.generate hashW signW c1Pass =
      .ok (c1FB ++ [("signature", signW (manifestFold hashW c1FB)),
                    ("manifest.json", manifestJson (manifestFold hashW c1FB))], c1P') ∧
    ∀ n b, objLookup c1FB n = some b →
      objLookup (manifestFold hashW c1FB) n = some (hashW b) :=
  generate_manifest_integrity hashW signW c1Pass c1FB c1P' rfl (by decide)

/-! ## Constructor inversion -/

theorem mkPass_ok_elim {V : Validators} {model : PartitionedBundle} {ov : Obj} {p : Pass}
    (h : mkPass V model ov = .ok p) :
    ∃ buf core ty sub pool slots,
      objLookup model.bundle "pass.json" = some buf ∧
      parseJson buf = some core ∧
      (jsonKeys core).find? matchesPassType = some ty ∧
      objLookup (jsonFields core) ty = some sub ∧
      sub ≠ .null ∧ sub ≠ .undef ∧
      buildSlots V (jsonFields sub) fieldsNames [] = .ok (pool, slots) ∧
      p = { bundle := model.bundle, l10nBundles := model.l10nBundle,
            passProps := mergedProps V ty core ov,
            type := ty, fieldsKeys := pool, slots := slots,
            transitTy := templateTransit ty sub,
            l10nTranslations := [] } := by
  unfold mkPass at h
  split at h
  · exact absurd h (by simp)
  next buf hbuf =>
    split at h
    · exact absurd h (by simp)
    next core hparse =>
      split at h
      · exact absurd h (by simp)
      next ty hty =>
        split at h
        · exact absurd h (by simp)
        · exact absurd h (by simp)
        · exact absurd h (by simp)
        next sub hnn hnu hsub =>
          split at h
          · exact absurd h (by simp)
          next pool slots hslots =>
            refine ⟨buf, core, ty, sub, pool, slots, hbuf, hparse, hty, hsub, ?_, ?_, hslots, ?_⟩
            · exact hnn
            · exact hnu
            · exact (Except.ok.inj h).symm

/-! ## C5 — silent dropping of non-whitelisted override keys -/

theorem objLookup_filter_key {α : Type} (p : String → Bool) (o : ObjMap α) (k : String) :
    objLookup (o.filter (fun e => p e.1)) k = if p k then objLookup o k else none := by
  induction o with
  | nil => simp [objLookup]
  | cons e es ih =>
      by_cases hpe : p e.1
      · rcases eq_or_ne e.1 k with hek | hek
        · subst hek
          simp [List.filter_cons, hpe, objLookup_cons, ih]
        · simp [List.filter_cons, hpe, objLookup_cons, hek, ih]
      · rcases eq_or_ne e.1 k with hek | hek
        · subst hek
          simp [List.filter_cons, hpe, ih]
        · simp [List.filter_cons, hpe, objLookup_cons, hek, ih]

theorem getValidatedOverrides_idem (ov : Obj) :
    getValidatedOverrides (getValidatedOverrides ov) = getValidatedOverrides ov := by
  unfold getValidatedOverrides
  induction ov with
  | nil => rfl
  | cons e es ih =>
      by_cases h : overridesWhitelist.contains e.1 = true
      · rw [List.filter_cons, if_pos h, List.filter_cons, if_pos h, ih]
      · rw [List.filter_cons, if_neg h, ih]

/-- C5: override keys outside the whitelist of mutable top-level keys are
dropped silently during validation and never merged: (1) whether
construction succeeds is independent of the overrides record (dropping is
non-fatal, no raise); (2) construction gives the same instance as if the
non-whitelisted keys had been removed beforehand; (3) validation keeps a
key exactly when it is whitelisted, and drops it (yielding nothing to
merge) otherwise. -/
theorem overrides_dropped_silently :
    (∀ (V : Validators) (model : PartitionedBundle) (ov ov' : Obj),
      (mkPass V model ov).isOk = (mkPass V model ov').isOk) ∧
    (∀ (V : Validators) (model : PartitionedBundle) (ov : Obj),
      mkPass V model ov = mkPass V model (getValidatedOverrides ov)) ∧
    (∀ (ov : Obj) (k : String),
      objLookup (getValidatedOverrides ov) k =
        if overridesWhitelist.contains k then objLookup ov k else none) := by
  refine ⟨?_, ?_, ?_⟩
  · intro V model ov ov'
    unfold mkPass
    repeat' split
    all_goals rfl
  · intro V model ov
    unfold mkPass mergedProps
    rw [getValidatedOverrides_idem]
  · intro ov k
    exact objLookup_filter_key (fun k' => overridesWhitelist.contains k') ov k

/-! ## C8 — field key uniqueness across the five slots -/

theorem objLookup_map_update {α : Type} (o : ObjMap α) (slot : String) (g : α → α)
    (k : String) :
    objLookup (o.map (fun s => if s.1 = slot then (s.1, g s.2) else s)) k =
      if k = slot then (objLookup o k).map g else objLookup o k := by
  induction o with
  | nil => simp [objLookup]
  | cons e es ih =>
      rcases eq_or_ne e.1 slot with hes | hes
      · rcases eq_or_ne e.1 k with hek | hek
        · rw [hek] at hes
          subst hes
          simp [objLookup_cons, hek, ih]
        · have hks : ¬ k = slot := fun hh => hek (hes.trans hh.symm)
          have hsk : ¬ slot = k := fun hh => hks hh.symm
          simp [objLookup_cons, hes, hek, ih, hks, hsk]
      · rcases eq_or_ne e.1 k with hek | hek
        · have hks : ¬ k = slot := fun hh => hes (hek.trans hh)
          have hsk : ¬ slot = k := fun hh => hks hh.symm
          simp [objLookup_cons, hes, hek, ih, hks, hsk]
        · simp [objLookup_cons, hes, hek, ih]

/-- C8: for one pass instance, inserting a field whose key is already
registered for any of the five slots (the shared `fieldsKeys` pool) fails
with the `DuplicateKey` condition and produces no new state — every slot is
unchanged; a successful insertion appends the field at the end of the
target slot (preserving insertion order), leaves every other slot
untouched, and registers the key. -/
theorem insertField_duplicate_key :
    (∀ (p : Pass) (slot : String) (f : JsonValue),
      fieldKey f ∈ p.fieldsKeys →
      Pass.insertField p slot f = .error .duplicateKey) ∧
    (∀ (p : Pass) (slot : String) (f : JsonValue),
      fieldKey f ∉ p.fieldsKeys →
      ∃ p', Pass.insertField p slot f = .ok p' ∧
        objLookup p'.slots slot = (objLookup p.slots slot).map (fun l => l ++ [f]) ∧
        (∀ s, s ≠ slot → objLookup p'.slots s = objLookup p.slots s) ∧
        p'.fieldsKeys = p.fieldsKeys ++ [fieldKey f] ∧
        p'.bundle = p.bundle ∧ p'.passProps = p.passProps) := by
  constructor
  · intro p slot f h
    unfold Pass.insertField
    rw [if_pos (by simpa using h)]
  · intro p slot f h
    refine ⟨{ p with
        fieldsKeys := p.fieldsKeys ++ [fieldKey f],
        slots := p.slots.map (fun s => if s.1 = slot then (s.1, s.2 ++ [f]) else s) },
      ?_, ?_, ?_, rfl, rfl, rfl⟩
    · unfold Pass.insertField
      rw [if_neg (by simpa using h)]
    · exact (objLookup_map_update p.slots slot (fun l => l ++ [f]) slot).trans (by simp)
    · intro s hs
      exact (objLookup_map_update p.slots slot (fun l => l ++ [f]) s).trans (by simp [hs])

/-- Witness pass for C8: two slots with one field each. -/
def c8Pass : Pass :=
  { bundle := [], l10nBundles := [], passProps := [], type := "storeCard",
    fieldsKeys := ["k1", "k2"],
    slots := [("primaryFields", [.obj [("key", .str "k1"), ("value", .str "v1")]]),
              ("secondaryFields", [.obj [("key", .str "k2"), ("value", .str "v2")]]),
              ("auxiliaryFields", []), ("backFields", []), ("headerFields", [])],
    transitTy := "", l10nTranslations := [] }

theorem insertField_duplicate_key_witness :
    Pass.insertField c8Pass "secondaryFields" (.obj [("key", .str "k1")]) =
      .error .duplicateKey ∧
    ∃ p', Pass.insertField c8Pass "secondaryFields" (.obj [("key", .str "k3")]) = .ok p' ∧
      objLookup p'.slots "secondaryFields" =
        (objLookup c8Pass.slots "secondaryFields").map (fun l => l ++ [.obj [("key", .str "k3")]]) ∧
      (∀ s, s ≠ "secondaryFields" → objLookup p'.slots s = objLookup c8Pass.slots s) ∧
      p'.fieldsKeys = c8Pass.fieldsKeys ++ [fieldKey (.obj [("key", .str "k3")])] ∧
      p'.bundle = c8Pass.bundle ∧ p'.passProps = c8Pass.passProps :=
  ⟨insertField_duplicate_key.1 c8Pass "secondaryFields" (.obj [("key", .str "k1")]) (by decide),
   insertField_duplicate_key.2 c8Pass "secondaryFields" (.obj [("key", .str "k3")]) (by decide)⟩

/-! ## C7 — barcode autogeneration and single-barcode selection -/

/-- C7: on an instance with no prior barcodes (and no single-barcode field),
`barcodes("12345")` sets the `barcodes` property to exactly four entries
with formats QR, PDF417, Aztec, Code128, each carrying message `"12345"`; a
subsequent `barcode("PKBarcodeFormatCode128")` is rejected (the instance is
returned unchanged, the single-barcode field stays unset) while
`barcode("PKBarcodeFormatQR")` succeeds and sets the single-barcode field
to the entry whose format is `PKBarcodeFormatQR`. -/
theorem barcodes_autogen_and_select (p : Pass)
    (hb : objLookup p.passProps "barcodes" = none)
    (hc : objLookup p.passProps "barcode" = none) :
    objLookup (Pass.barcodes p "12345").passProps "barcodes" =
      some (.arr [.obj [("format", .str "PKBarcodeFormatQR"), ("message", .str "12345")],
                  .obj [("format", .str "PKBarcodeFormatPDF417"), ("message", .str "12345")],
                  .obj [("format", .str "PKBarcodeFormatAztec"), ("message", .str "12345")],
                  .obj [("format", .str "PKBarcodeFormatCode128"), ("message", .str "12345")]]) ∧
    Pass.barcode (Pass.barcodes p "12345") (some "PKBarcodeFormatCode128") =
      Pass.barcodes p "12345" ∧
    objLookup (Pass.barcodes p "12345").passProps "barcode" = none ∧
    objLookup (Pass.barcode (Pass.barcodes p "12345")
        (some "PKBarcodeFormatQR")).passProps "barcode" =
      some (.obj [("format", .str "PKBarcodeFormatQR"), ("message", .str "12345")]) := by
  have hprops : (Pass.barcodes p "12345").passProps =
      objSet p.passProps "barcodes"
        (.arr [.obj [("format", .str "PKBarcodeFormatQR"), ("message", .str "12345")],
               .obj [("format", .str "PKBarcodeFormatPDF417"), ("message", .str "12345")],
               .obj [("format", .str "PKBarcodeFormatAztec"), ("message", .str "12345")],
               .obj [("format", .str "PKBarcodeFormatCode128"), ("message", .str "12345")]]) := rfl
  refine ⟨?_, rfl, ?_, ?_⟩
  · rw [hprops, objLookup_objSet_self]
  · rw [hprops, objLookup_objSet_ne _ _ (by decide)]
    exact hc
  · have hlook : objLookup (Pass.barcodes p "12345").passProps "barcodes" =
        some (.arr [.obj [("format", .str "PKBarcodeFormatQR"), ("message", .str "12345")],
                    .obj [("format", .str "PKBarcodeFormatPDF417"), ("message", .str "12345")],
                    .obj [("format", .str "PKBarcodeFormatAztec"), ("message", .str "12345")],
                    .obj [("format", .str "PKBarcodeFormatCode128"), ("message", .str "12345")]]) := by
      rw [hprops, objLookup_objSet_self]
    unfold Pass.barcode
    rw [hlook]
    exact objLookup_objSet_self _ _ _

/-- Witness pass for C7: empty property bag. -/
def c7Pass : Pass :=
  { bundle := [("pass.json", .json (.obj [("coupon", .obj [])]))],
    l10nBundles := [], passProps := [], type := "coupon", fieldsKeys := [],
    slots := [], transitTy := "", l10nTranslations := [] }

theorem barcodes_autogen_and_select_witness :
    objLookup (Pass.barcodes c7Pass "12345").passProps "barcodes" =
      some (.arr [.obj [("format", .str "PKBarcodeFormatQR"), ("message", .str "12345")],
                  .obj [("format", .str "PKBarcodeFormatPDF417"), ("message", .str "12345")],
                  .obj [("format", .str "PKBarcodeFormatAztec"), ("message", .str "12345")],
                  .obj [("format", .str "PKBarcodeFormatCode128"), ("message", .str "12345")]]) ∧
    Pass.barcode (Pass.barcodes c7Pass "12345") (some "PKBarcodeFormatCode128") =
      Pass.barcodes c7Pass "12345" ∧
    objLookup (Pass.barcodes c7Pass "12345").passProps "barcode" = none ∧
    objLookup (Pass.barcode (Pass.barcodes c7Pass "12345")
        (some "PKBarcodeFormatQR")).passProps "barcode" =
      some (.obj [("format", .str "PKBarcodeFormatQR"), ("message", .str "12345")]) :=
  barcodes_autogen_and_select c7Pass rfl rfl

/-! ## C9 — transitType is written for every category -/

/-- C9: whenever `_patch` succeeds (for any pass category, not only
boarding passes), the serialized `pass.json` carries a `transitType` key
inside the category's sub-record holding the stored transit-type string;
and for a pass constructed with a non-boarding category that string is `""`
(it is never assigned), so a store card's or coupon's final metadata
contains `transitType = ""`. -/
theorem patch_writes_transitType :
    (∀ (p : Pass) (pr : Buffer × Obj), Pass._patch p = .ok pr →
      ∃ pf tsub, pr.1 = .json (.obj pf) ∧
        objLookup pf p.type = some (.obj tsub) ∧
        objLookup tsub "transitType" = some (.str p.transitTy)) ∧
    (∀ (V : Validators) (model : PartitionedBundle) (ov : Obj) (p : Pass),
      mkPass V model ov = .ok p → p.type ≠ "boardingPass" → p.transitTy = "") := by
  constructor
  · intro p pr h
    unfold Pass._patch at h
    split at h
    · exact absurd h (by simp)
    next buf hbuf =>
      split at h
      · exact absurd h (by simp)
      next v hparse =>
        split at h
        next tsub hsub =>
          split at h
          · exact absurd h (by simp)
          next hbp =>
            have hpr : pr = _ := (Except.ok.inj h).symm
            subst hpr
            exact ⟨_, _, rfl, objLookup_objSet_self _ _ _, objLookup_objSet_self _ _ _⟩
        · exact absurd h (by simp)
  · intro V model ov p h hty
    obtain ⟨buf, core, ty, sub, pool, slots, _, _, _, _, _, _, _, hp⟩ := mkPass_ok_elim h
    subst hp
    simp only at hty ⊢
    unfold templateTransit
    rw [if_neg hty]

/-! ## Support lemmas for the patch pipeline -/

theorem colorStep_lookup_ne (o : Obj) (c k : String) (h : k ≠ c) :
    objLookup (colorStep o c) k = objLookup o k := by
  unfold colorStep
  split
  next v hv =>
    split
    · rw [objLookup_objDelete, if_neg h]
    · rfl
  next => rfl

theorem colorStep_lookup_keep (o : Obj) (c k : String) (v : JsonValue)
    (hl : objLookup o k = some v)
    (hv : (v.truthy && !isValidRGBJson v) = false) :
    objLookup (colorStep o c) k = some v := by
  unfold colorStep
  split
  next w hw =>
    split
    next hcond =>
      rw [objLookup_objDelete]
      rcases eq_or_ne k c with rfl | h
      · rw [hl] at hw
        cases Option.some.inj hw
        rw [hv] at hcond
        exact absurd hcond Bool.false_ne_true
      · rw [if_neg h]; exact hl
    next hcond => exact hl
  next hw => exact hl

theorem filterColors_lookup_keep (o : Obj) (k : String) (v : JsonValue)
    (hl : objLookup o k = some v)
    (hv : (v.truthy && !isValidRGBJson v) = false) :
    objLookup (filterColors o) k = some v := by
  unfold filterColors passColors
  simp only [List.foldl_cons, List.foldl_nil]
  exact colorStep_lookup_keep _ _ _ _
    (colorStep_lookup_keep _ _ _ _ (colorStep_lookup_keep _ _ _ _ hl hv) hv) hv

theorem filterColors_lookup_ne (o : Obj) (k : String) (h : k ∉ passColors) :
    objLookup (filterColors o) k = objLookup o k := by
  simp only [passColors, List.mem_cons, List.not_mem_nil, or_false, not_or] at h
  obtain ⟨h1, h2, h3⟩ := h
  unfold filterColors passColors
  simp only [List.foldl_cons, List.foldl_nil]
  rw [colorStep_lookup_ne _ _ _ h3, colorStep_lookup_ne _ _ _ h2, colorStep_lookup_ne _ _ _ h1]

theorem colorStep_sublist (o : Obj) (c : String) :
    List.Sublist (colorStep o c) o := by
  unfold colorStep
  split
  next v hv =>
    split
    · exact objDelete_sublist o c
    · exact List.Sublist.refl o
  next => exact List.Sublist.refl o

theorem filterColors_sublist (o : Obj) : List.Sublist (filterColors o) o := by
  unfold filterColors passColors
  simp only [List.foldl_cons, List.foldl_nil]
  exact ((colorStep_sublist _ _).trans (colorStep_sublist _ _)).trans (colorStep_sublist _ _)

theorem mem_objKeys_filterColors {o : Obj} {k : String}
    (h : k ∈ objKeys (filterColors o)) : k ∈ objKeys o :=
  ((filterColors_sublist o).map Prod.fst).mem h

theorem mem_objKeys_objMerge {α : Type} {a b : ObjMap α} {k : String}
    (h : k ∈ objKeys (objMerge a b)) : k ∈ objKeys a ∨ k ∈ objKeys b := by
  rcases mem_objKeys_foldl_objSet (fun x => x) (fun x => x) b a k h with h' | ⟨e, he, hk⟩
  · exact Or.inl h'
  · exact Or.inr (hk ▸ List.mem_map_of_mem Prod.fst he)

theorem patchOverlay_lookup_notMem (props pf₀ : Obj) (k : String)
    (h : k ∉ objKeys props) :
    objLookup (patchOverlay props pf₀).2 k = objLookup pf₀ k := by
  unfold patchOverlay
  by_cases he : props.isEmpty
  · rw [if_pos he]
  · rw [if_neg he]
    exact objLookup_objMerge_notMem pf₀ _ k (fun hm => h (mem_objKeys_filterColors hm))

theorem mem_objKeys_validateStep_foldl (V : Validators) (ty : String) :
    ∀ (core : Obj) (acc : Obj) (k : String),
      k ∈ objKeys (core.foldl (validateStep V ty) acc) →
      k ∈ objKeys acc ∨ (k ∈ objKeys core ∧ k ≠ ty)
  | [], _, _, h => Or.inl h
  | e :: es, acc, k, h => by
      rw [List.foldl_cons] at h
      rcases mem_objKeys_validateStep_foldl V ty es _ k h with h' | ⟨hm, hne⟩
      · unfold validateStep at h'
        rcases eq_or_ne e.1 ty with hty | hty
        · rw [if_pos hty] at h'
          exact Or.inl h'
        · rw [if_neg hty] at h'
          rcases (mem_objKeys_objSet acc e.1 k _).mp h' with h'' | h''
          · exact Or.inl h''
          · exact Or.inr ⟨by rw [objKeys_cons, h'']; exact List.mem_cons_self _ _, h'' ▸ hty⟩
      · exact Or.inr ⟨by rw [objKeys_cons]; exact List.mem_cons_of_mem _ hm, hne⟩

theorem notMem_ty_keys_validate (V : Validators) (ty : String) (core : Obj) :
    ty ∉ objKeys (validatePassCoreKeys V ty core) := by
  intro h
  rcases mem_objKeys_validateStep_foldl V ty core [] ty h with h' | ⟨_, hne⟩
  · simp [objKeys] at h'
  · exact hne rfl

theorem keys_getValidatedOverrides_subset (ov : Obj) (k : String)
    (h : k ∈ objKeys (getValidatedOverrides ov)) : k ∈ overridesWhitelist := by
  unfold getValidatedOverrides at h
  obtain ⟨e, he, rfl⟩ := List.mem_map.mp h
  have := List.mem_filter.mp he
  simpa using this.2

theorem whitelist_not_passType : ∀ k ∈ overridesWhitelist, matchesPassType k = false := by
  decide

/-- For a pass built by the constructor, the detected category key never
occurs in the merged property bag (the reduce skips it and no whitelisted
override key matches a category name). -/
theorem type_notMem_mergedProps (V : Validators) (ty : String) (core : JsonValue) (ov : Obj)
    (hty : matchesPassType ty = true) :
    ty ∉ objKeys (mergedProps V ty core ov) := by
  intro h
  rcases mem_objKeys_objMerge h with h' | h'
  · exact notMem_ty_keys_validate V ty (jsonFields core) h'
  · rw [whitelist_not_passType ty (keys_getValidatedOverrides_subset ov ty h')] at hty
    exact Bool.false_ne_true hty

theorem generate_ok_of_patch_ok (hash : Buffer → String) (sign : ObjMap String → Buffer)
    (p : Pass) (pr : Buffer × Obj) (h : Pass._patch p = .ok pr) :
    ∃ out, Pass.generate hash sign p = .ok out := by
  unfold Pass.generate Pass.finalBundle
  rw [h]
  exact ⟨_, rfl⟩

/-- The value `_patch` produces on success, given the parsed template `core`
and the category sub-record `bp`. -/
def patchResult (p : Pass) (core bp : Obj) : Buffer × Obj :=
  (.json (.obj (objSet (patchOverlay p.passProps core).2 p.type
    (.obj (objSet (writeSlots p.slots bp) "transitType" (.str p.transitTy))))),
   (patchOverlay p.passProps core).1)

theorem patch_ok (p : Pass) (core bp : Obj)
    (hb : objLookup p.bundle "pass.json" = some (.json (.obj core)))
    (hty : p.type ∉ objKeys p.passProps)
    (hsub : objLookup core p.type = some (.obj bp))
    (hno : ¬(p.type = "boardingPass" ∧ p.transitTy = "")) :
    Pass._patch p = .ok (patchResult p core bp) := by
  unfold Pass._patch
  rw [hb]
  simp only [parseJson, jsonFields]
  rw [patchOverlay_lookup_notMem _ _ _ hty, hsub]
  show (if p.type = "boardingPass" ∧ p.transitTy = "" then
      (Except.error PassError.trstypeRequired : Except PassError (Buffer × Obj))
    else .ok (patchResult p core bp)) = .ok (patchResult p core bp)
  rw [if_neg hno]

theorem patch_transit_error (p : Pass) (core bp : Obj)
    (hb : objLookup p.bundle "pass.json" = some (.json (.obj core)))
    (hty : p.type ∉ objKeys p.passProps)
    (hsub : objLookup core p.type = some (.obj bp))
    (hbp : p.type = "boardingPass") (htt : p.transitTy = "") :
    Pass._patch p = .error .trstypeRequired := by
  unfold Pass._patch
  rw [hb]
  simp only [parseJson, jsonFields]
  rw [patchOverlay_lookup_notMem _ _ _ hty, hsub]
  show (if p.type = "boardingPass" ∧ p.transitTy = "" then
      (Except.error PassError.trstypeRequired : Except PassError (Buffer × Obj))
    else .ok (patchResult p core bp)) = .error .trstypeRequired
  rw [if_pos ⟨hbp, htt⟩]

theorem generate_error_of_patch_error (hash : Buffer → String)
    (sign : ObjMap String → Buffer) (p : Pass) (e : PassError)
    (h : Pass._patch p = .error e) : Pass.generate hash sign p = .error e := by
  unfold Pass.generate Pass.finalBundle
  rw [h]

theorem slotItems_error (sf : Obj) (n : String) (e : PassError)
    (h : slotItems sf n = .error e) : e = .typeError := by
  unfold slotItems at h
  split at h
  · exact absurd h (by simp)
  split at h
  · split at h
    · exact absurd h (by simp)
    · exact (Except.error.inj h).symm
  · exact absurd h (by simp)

theorem buildSlots_error (V : Validators) (sf : Obj) :
    ∀ (ns : List String) (pool : List String) (e : PassError),
      buildSlots V sf ns pool = .error e → e = .typeError
  | [], _, _, h => by simp [buildSlots] at h
  | n :: ns, pool, e, h => by
      unfold buildSlots at h
      split at h
      next e' hsl =>
        obtain rfl := Except.error.inj h
        exact slotItems_error sf n _ hsl
      next items hsl =>
        split at h
        next e' hrec =>
          obtain rfl := Except.error.inj h
          exact buildSlots_error V sf ns _ _ hrec
        next => exact absurd h (by simp)

/-! ## C2 — the transit-subtype requirement is a generation-time error -/

/-- C2: the transit-subtype-required error is raised only at generation
time, never at construction time: (1) the constructor can never fail with
it; (2) a pass whose detected category is `boardingPass` and whose transit
subtype was never resolved (`transitTy = ""`) fails `generate()` with
exactly that error; (3) a `storeCard` pass with no transit type generates
successfully; (4) setting a (valid, non-empty) subtype between
construction and generation makes `generate()` succeed. -/
theorem transit_subtype_required_at_generation :
    (∀ (V : Validators) (model : PartitionedBundle) (ov : Obj),
      mkPass V model ov ≠ .error .trstypeRequired) ∧
    (∀ (hash : Buffer → String) (sign : ObjMap String → Buffer) (p : Pass) (core bp : Obj),
      objLookup p.bundle "pass.json" = some (.json (.obj core)) →
      objLookup core p.type = some (.obj bp) →
      p.type ∉ objKeys p.passProps →
      p.type = "boardingPass" → p.transitTy = "" →
      Pass.generate hash sign p = .error .trstypeRequired) ∧
    (∀ (hash : Buffer → String) (sign : ObjMap String → Buffer) (p : Pass) (core bp : Obj),
      objLookup p.bundle "pass.json" = some (.json (.obj core)) →
      objLookup core p.type = some (.obj bp) →
      p.type ∉ objKeys p.passProps →
      p.type = "storeCard" →
      ∃ out, Pass.generate hash sign p = .ok out) ∧
    (∀ (V : Validators) (hash : Buffer → String) (sign : ObjMap String → Buffer)
      (p : Pass) (core bp : Obj) (value : String),
      objLookup p.bundle "pass.json" = some (.json (.obj core)) →
      objLookup core p.type = some (.obj bp) →
      p.type ∉ objKeys p.passProps →
      p.type = "boardingPass" →
      V.transitValid value = true → value ≠ "" →
      ∃ out, Pass.generate hash sign (Pass.setTransitType V p value) = .ok out) := by
  refine ⟨?_, ?_, ?_, ?_⟩
  · intro V model ov h
    unfold mkPass at h
    split at h
    · exact absurd (Except.error.inj h) (by simp)
    split at h
    · exact absurd (Except.error.inj h) (by simp)
    split at h
    · exact absurd (Except.error.inj h) (by simp)
    split at h
    · exact absurd (Except.error.inj h) (by simp)
    · exact absurd (Except.error.inj h) (by simp)
    · exact absurd (Except.error.inj h) (by simp)
    split at h
    next e hsl =>
      have := buildSlots_error _ _ _ _ _ ((Except.error.inj h) ▸ hsl)
      exact absurd this (by simp)
    next => exact absurd h (by simp)
  · intro hash sign p core bp hb hsub hty hbp htt
    exact generate_error_of_patch_error hash sign p _
      (patch_transit_error p core bp hb hty hsub hbp htt)
  · intro hash sign p core bp hb hsub hty hsc
    refine generate_ok_of_patch_ok hash sign p _ (patch_ok p core bp hb hty hsub ?_)
    rintro ⟨h1, _⟩
    rw [hsc] at h1
    exact absurd h1 (by decide)
  · intro V hash sign p core bp value hb hsub hty hbp hval hvne
    have hset : Pass.setTransitType V p value = { p with transitTy := value } := by
      unfold Pass.setTransitType
      rw [if_pos hval]
    rw [hset]
    refine generate_ok_of_patch_ok hash sign _ _ (patch_ok _ core bp hb hty hsub ?_)
    rintro ⟨_, h2⟩
    exact hvne h2

/-- A boarding-pass template with no transit subtype. -/
def c2BpModel : PartitionedBundle :=
  { bundle := [("pass.json", .json (.obj [("boardingPass", .obj [])]))], l10nBundle := [] }

/-- A store-card template with no transit subtype. -/
def c2ScModel : PartitionedBundle :=
  { bundle := [("pass.json", .json (.obj [("storeCard", .obj [])]))], l10nBundle := [] }

/-- The boarding pass constructed from `c2BpModel`. -/
def c2BpPass : Pass :=
  match mkPass acceptAll c2BpModel [] with
  | .ok p => p
  | .error _ => default

/-- The store card constructed from `c2ScModel`. -/
def c2ScPass : Pass :=
  match mkPass acceptAll c2ScModel [] with
  | .ok p => p
  | .error _ => default

theorem transit_subtype_required_at_generation_witness :
    mkPass acceptAll c2BpModel [] ≠ .error .trstypeRequired ∧
    Pass.generate hashW signW c2BpPass = .error .trstypeRequired ∧
    (∃ out, Pass.generate hashW signW c2ScPass = .ok out) ∧
    (∃ out, Pass.generate hashW signW
      (Pass.setTransitType acceptAll c2BpPass "PKTransitTypeAir") = .ok out) :=
  ⟨transit_subtype_required_at_generation.1 acceptAll c2BpModel [],
   transit_subtype_required_at_generation.2.1 hashW signW c2BpPass
     [("boardingPass", .obj [])] [] rfl rfl (by decide) rfl rfl,
   transit_subtype_required_at_generation.2.2.1 hashW signW c2ScPass
     [("storeCard", .obj [])] [] rfl rfl (by decide) rfl,
   transit_subtype_required_at_generation.2.2.2 acceptAll hashW signW c2BpPass
     [("boardingPass", .obj [])] [] "PKTransitTypeAir" rfl rfl (by decide) rfl rfl
     (by decide)⟩

/-! ## C4 — override precedence and the color revalidation exception -/

theorem patch_ok_elim {p : Pass} {pr : Buffer × Obj} (h : Pass._patch p = .ok pr) :
    ∃ buf v tsub,
      objLookup p.bundle "pass.json" = some buf ∧ parseJson buf = some v ∧
      objLookup (patchOverlay p.passProps (jsonFields v)).2 p.type = some (.obj tsub) ∧
      ¬(p.type = "boardingPass" ∧ p.transitTy = "") ∧
      pr = (.json (.obj (objSet (patchOverlay p.passProps (jsonFields v)).2 p.type
        (.obj (objSet (writeSlots p.slots tsub) "transitType" (.str p.transitTy))))),
        (patchOverlay p.passProps (jsonFields v)).1) := by
  unfold Pass._patch at h
  split at h
  · exact absurd h (by simp)
  next buf hbuf =>
    split at h
    · exact absurd h (by simp)
    next v hparse =>
      split at h
      next tsub hsub =>
        split at h
        · exact absurd h (by simp)
        next hbp =>
          exact ⟨buf, v, tsub, hbuf, hparse, hsub, hbp, (Except.ok.inj h).symm⟩
      · exact absurd h (by simp)

theorem nodup_keys_validate_foldl (V : Validators) (ty : String) :
    ∀ (core : Obj) (acc : Obj), (objKeys acc).Nodup →
      (objKeys (core.foldl (validateStep V ty) acc)).Nodup
  | [], _, h => h
  | e :: es, acc, h => by
      rw [List.foldl_cons]
      refine nodup_keys_validate_foldl V ty es _ ?_
      unfold validateStep
      split
      · exact h
      · exact nodup_objKeys_objSet _ _ _ h

theorem nodup_keys_mergedProps (V : Validators) (ty : String) (core : JsonValue) (ov : Obj) :
    (objKeys (mergedProps V ty core ov)).Nodup :=
  nodup_foldl_objSet (fun x => x) (fun x => x) (getValidatedOverrides ov) _
    (nodup_keys_validate_foldl V ty (jsonFields core) [] (by simp [objKeys]))

theorem objLookup_some_not_isEmpty {α : Type} {o : ObjMap α} {k : String} {v : α}
    (h : objLookup o k = some v) : o.isEmpty = false := by
  cases o with
  | nil => simp [objLookup] at h
  | cons e es => rfl

/-- C4 (counterexample): with the color key `backgroundColor` inside the
documented whitelist, an override value that is not a valid RGB string is
accepted into the merged properties but deleted again by `_patch`'s color
revalidation, so the final `pass.json` keeps the template's original value
instead of the override's value — the claim fails as stated. -/
def c4Model : PartitionedBundle :=
  { bundle := [("pass.json", .json (.obj [("storeCard", .obj []),
      ("backgroundColor", .str "rgb(1,2,3)")]))],
    l10nBundle := [] }

/-- The overrides record of the C4 counterexample. -/
def c4Ov : Obj := [("backgroundColor", .str "bad")]

/-- The pass of the C4 counterexample. -/
def c4Pass : Pass :=
  match mkPass acceptAll c4Model c4Ov with
  | .ok p => p
  | .error _ => default

/-- The patched `pass.json` of the C4 counterexample. -/
def c4Patch : Buffer × Obj :=
  match Pass._patch c4Pass with
  | .ok pr => pr
  | .error _ => (.raw "", [])

/-- The top-level value of a key in a patched `pass.json` buffer. -/
def patchedLookup (pr : Buffer × Obj) (k : String) : Option JsonValue :=
  match pr.1 with
  | .json (.obj pf) => objLookup pf k
  | _ => none

theorem override_precedence_counterexample :
    "backgroundColor" ∈ overridesWhitelist ∧
    objLookup c4Ov "backgroundColor" = some (.str "bad") ∧
    objLookup c4Pass.passProps "backgroundColor" = some (.str "bad") ∧
    Pass._patch c4Pass = .ok c4Patch ∧
    patchedLookup c4Patch "backgroundColor" = some (.str "rgb(1,2,3)") ∧
    (some (JsonValue.str "rgb(1,2,3)") = some (JsonValue.str "bad") → False) :=
  ⟨by decide, rfl, rfl, rfl, rfl, by
    intro h
    injection h with h1
    injection h1 with h2
    exact absurd h2 (by decide)⟩

/-- C4 (amended): for any template and any overrides record whose keys are
all inside the documented whitelist, the final patched `pass.json` assigns
to each overridden key the override's value, regardless of the template's
original value — except when the key is one of the color keys
`backgroundColor`/`foregroundColor`/`labelColor` and the override's value
is truthy but not a valid `rgb(r,g,b)` string: such a key is deleted from
the merged properties immediately before serialization and the template's
original value survives. -/
theorem override_precedence_amended
    (V : Validators) (model : PartitionedBundle) (ov : Obj) (p : Pass)
    (k : String) (v : JsonValue) (pr : Buffer × Obj)
    (hok : mkPass V model ov = .ok p)
    (hnd : (objKeys ov).Nodup)
    (hk : objLookup ov k = some v)
    (hw : k ∈ overridesWhitelist)
    (hcolor : k ∈ passColors → (v.truthy && !isValidRGBJson v) = false)
    (hpatch : Pass._patch p = .ok pr) :
    ∃ pf, pr.1 = .json (.obj pf) ∧ objLookup pf k = some v := by
  obtain ⟨buf, core, ty, sub, pool, slots, hbuf, hparse, hty, hsub, _, _, hslots, hp⟩ :=
    mkPass_ok_elim hok
  have hmatch : matchesPassType ty = true := List.find?_some hty
  have hkty : k ≠ ty := by
    intro hh
    rw [whitelist_not_passType ty (hh ▸ hw)] at hmatch
    exact Bool.false_ne_true hmatch
  -- the override survives whitelist validation and wins the merge
  have hvo : objLookup (getValidatedOverrides ov) k = some v := by
    unfold getValidatedOverrides
    rw [objLookup_filter_key, if_pos (by simpa using hw)]
    exact hk
  have hndvo : (objKeys (getValidatedOverrides ov)).Nodup :=
    hnd.sublist ((List.filter_sublist ov).map Prod.fst)
  have hprops : objLookup p.passProps k = some v := by
    rw [hp]
    exact objLookup_objMerge_mem _ _ _ _ hndvo hvo
  have hnem : p.passProps.isEmpty = false := objLookup_some_not_isEmpty hprops
  have hndp : (objKeys p.passProps).Nodup := by
    rw [hp]
    exact nodup_keys_mergedProps V ty core ov
  -- the (possibly color-pruned) bag still binds the key to the override value
  have hfc : objLookup (filterColors p.passProps) k = some v := by
    by_cases hcc : k ∈ passColors
    · exact filterColors_lookup_keep _ _ _ hprops (hcolor hcc)
    · rw [filterColors_lookup_ne _ _ hcc]
      exact hprops
  have hndfc : (objKeys (filterColors p.passProps)).Nodup :=
    hndp.sublist ((filterColors_sublist p.passProps).map Prod.fst)
  obtain ⟨buf', v', tsub, hbuf', hparse', hsub', hbp', hpr⟩ := patch_ok_elim hpatch
  refine ⟨_, by rw [hpr], ?_⟩
  have hoverlay : objLookup (patchOverlay p.passProps (jsonFields v')).2 k = some v := by
    unfold patchOverlay
    rw [if_neg (by simp [hnem])]
    exact objLookup_objMerge_mem _ _ _ _ hndfc hfc
  have hktype : k ≠ p.type := by
    rw [hp]
    exact hkty
  rw [objLookup_objSet_ne _ _ hktype]
  exact hoverlay

/-- Witness model for the amended C4: template declares `voided: false`,
the override sets `voided: true`. -/
def c4wModel : PartitionedBundle :=
  { bundle := [("pass.json", .json (.obj [("storeCard", .obj []),
      ("voided", .bool false)]))],
    l10nBundle := [] }

/-- Witness overrides for the amended C4. -/
def c4wOv : Obj := [("voided", .bool true)]

/-- Witness pass for the amended C4. -/
def c4wPass : Pass :=
  match mkPass acceptAll c4wModel c4wOv with
  | .ok p => p
  | .error _ => default

/-- Witness patch result for the amended C4. -/
def c4wPatch : Buffer × Obj :=
  match Pass._patch c4wPass with
  | .ok pr => pr
  | .error _ => (.raw "", [])

theorem override_precedence_amended_witness :
    ∃ pf, c4wPatch.1 = .json (.obj pf) ∧ objLookup pf "voided" = some (.bool true) :=
  override_precedence_amended acceptAll c4wModel c4wOv c4wPass "voided" (.bool true)
    c4wPatch rfl (by decide) rfl (by decide) (by decide) rfl

/-- Witness model for C9: a coupon pass. -/
def c9Model : PartitionedBundle :=
  { bundle := [("pass.json", .json (.obj [("coupon", .obj [])]))], l10nBundle := [] }

/-- Witness pass for C9. -/
def c9Pass : Pass :=
  match mkPass acceptAll c9Model [] with
  | .ok p => p
  | .error _ => default

/-- Witness patch result for C9. -/
def c9Patch : Buffer × Obj :=
  match Pass._patch c9Pass with
  | .ok pr => pr
  | .error _ => (.raw "", [])

theorem patch_writes_transitType_witness :
    (∃ pf tsub, c9Patch.1 = .json (.obj pf) ∧
      objLookup pf c9Pass.type = some (.obj tsub) ∧
      objLookup tsub "transitType" = some (.str c9Pass.transitTy)) ∧
    c9Pass.transitTy = "" :=
  ⟨patch_writes_transitType.1 c9Pass c9Patch rfl,
   patch_writes_transitType.2 acceptAll c9Model [] c9Pass rfl (by decide)⟩

/-! ## Path and string-table lemmas -/

/-- A name without path separators. -/
def noSlash (s : String) : Bool :=
  s.data.all (fun c => c != '/')

theorem noSlash_append (a b : String) (ha : noSlash a = true) (hb : noSlash b = true) :
    noSlash (a ++ b) = true := by
  unfold noSlash at *
  rw [String.data_append, List.all_append, ha, hb]
  rfl

theorem strAppend_left_cancel {a x y : String} (h : a ++ x = a ++ y) : x = y := by
  apply String.ext
  have : a.data ++ x.data = a.data ++ y.data := by
    rw [← String.data_append, ← String.data_append, h]
  exact List.append_cancel_left this

theorem strAppend_right_cancel {x y a : String} (h : x ++ a = y ++ a) : x = y := by
  apply String.ext
  have : x.data ++ a.data = y.data ++ a.data := by
    rw [← String.data_append, ← String.data_append, h]
  exact List.append_cancel_right this

theorem lproj_inj {l₁ l₂ : String} (h : l₁ ++ ".lproj" = l₂ ++ ".lproj") : l₁ = l₂ :=
  strAppend_right_cancel h

theorem chars_append_slash_inj :
    ∀ {a b r s : List Char},
      (∀ c ∈ a, c ≠ '/') → (∀ c ∈ b, c ≠ '/') →
      a ++ '/' :: r = b ++ '/' :: s → a = b ∧ r = s
  | [], [], _, _, _, _, h => ⟨rfl, List.cons.inj h |>.2⟩
  | [], d :: bs, _, _, _, hb, h => by
      rw [List.nil_append, List.cons_append] at h
      exact absurd (List.cons.inj h).1.symm (hb d (List.mem_cons_self d bs))
  | c :: as, [], _, _, ha, _, h => by
      rw [List.nil_append, List.cons_append] at h
      exact absurd (List.cons.inj h).1 (ha c (List.mem_cons_self c as))
  | c :: as, d :: bs, r, s, ha, hb, h => by
      rw [List.cons_append, List.cons_append] at h
      obtain ⟨h1, h2⟩ := List.cons.inj h
      obtain ⟨h3, h4⟩ := chars_append_slash_inj
        (fun c' hc => ha c' (List.mem_cons_of_mem c hc))
        (fun c' hc => hb c' (List.mem_cons_of_mem d hc)) h2
      exact ⟨by rw [h1, h3], h4⟩

theorem noSlash_chars {s : String} (h : noSlash s = true) : ∀ c ∈ s.data, c ≠ '/' := by
  intro c hc
  have := List.all_eq_true.mp h c hc
  simpa using this

theorem path_inj {d₁ d₂ r₁ r₂ : String}
    (h₁ : noSlash d₁ = true) (h₂ : noSlash d₂ = true)
    (h : d₁ ++ "/" ++ r₁ = d₂ ++ "/" ++ r₂) : d₁ = d₂ ∧ r₁ = r₂ := by
  have hd : d₁.data ++ '/' :: r₁.data = d₂.data ++ '/' :: r₂.data := by
    have := congrArg String.data h
    rw [String.data_append, String.data_append, String.data_append,
      String.data_append] at this
    simpa using this
  obtain ⟨ha, hb⟩ := chars_append_slash_inj (noSlash_chars h₁) (noSlash_chars h₂) hd
  exact ⟨String.ext ha, String.ext hb⟩

theorem noSlash_ne_path (k d r : String) (hk : noSlash k = true) :
    k ≠ d ++ "/" ++ r := by
  intro h
  have hmem : '/' ∈ k.data := by
    rw [h, String.data_append, String.data_append]
    exact List.mem_append.mpr (Or.inl (List.mem_append.mpr (Or.inr (by simp))))
  exact noSlash_chars hk '/' hmem rfl

theorem objLookup_eq_none_iff {α : Type} (o : ObjMap α) (k : String) :
    objLookup o k = none ↔ k ∉ objKeys o := by
  induction o with
  | nil => simp [objLookup, objKeys]
  | cons e es ih =>
      rw [objLookup_cons, objKeys_cons]
      rcases eq_or_ne e.1 k with hek | hek
      · subst hek
        simp
      · simp only [if_neg hek, List.mem_cons, not_or, ih]
        constructor
        · intro h; exact ⟨fun hh => hek hh.symm, h⟩
        · intro h; exact h.2

theorem objLookup_eq_some_iff_mem {α : Type} (o : ObjMap α)
    (hnd : (objKeys o).Nodup) (k : String) (v : α) :
    objLookup o k = some v ↔ (k, v) ∈ o := by
  induction o with
  | nil => simp [objLookup]
  | cons e es ih =>
      rw [objKeys_cons, List.nodup_cons] at hnd
      rw [objLookup_cons, List.mem_cons]
      rcases eq_or_ne e.1 k with hek | hek
      · subst hek
        rw [if_pos rfl]
        constructor
        · intro h
          obtain rfl := Option.some.inj h
          exact Or.inl rfl
        · rintro (h | h)
          · rw [← h]
          · exact absurd (List.mem_map_of_mem Prod.fst h) hnd.1
      · rw [if_neg hek, ih hnd.2]
        constructor
        · exact Or.inr
        · rintro (h | h)
          · exact absurd (congrArg Prod.fst h).symm hek
          · exact h

theorem objLookup_reverse {α : Type} (o : ObjMap α) (hnd : (objKeys o).Nodup)
    (k : String) : objLookup o.reverse k = objLookup o k := by
  have hndr : (objKeys o.reverse).Nodup := by
    unfold objKeys
    rw [List.map_reverse, List.nodup_reverse]
    exact hnd
  cases hv : objLookup o k with
  | some v =>
      rw [objLookup_eq_some_iff_mem o.reverse hndr]
      rw [List.mem_reverse]
      exact (objLookup_eq_some_iff_mem o hnd k v).mp hv
  | none =>
      rw [objLookup_eq_none_iff] at hv ⊢
      unfold objKeys at hv ⊢
      rw [List.map_reverse, List.mem_reverse]
      exact hv

@[simp] theorem buffer_concat_raw (a b : String) :
    Buffer.concat (.raw a) (.raw b) = .raw (a ++ b) := rfl

theorem templateStrings_getD (lb : ObjMap BundleUnit) (dir : String) :
    templateStrings lb dir =
      (objLookup ((objLookup lb dir).getD []) "pass.strings").getD (.raw "") := by
  unfold templateStrings
  cases objLookup lb dir with
  | some u => rfl
  | none => rfl

theorem stringsLine_length (k v : String) :
    (stringsLine k v).length = k.length + 4 + v.length + 2 := by
  unfold stringsLine
  rw [String.length_append, String.length_append, String.length_append,
    show (" = \"" : String).length = 4 from rfl, show ("\";" : String).length = 2 from rfl]

theorem generateStringFile_ne_empty (t : ObjMap String) (h : t ≠ []) :
    generateStringFile t ≠ "" := by
  obtain ⟨e, es, rfl⟩ : ∃ e es, t = e :: es := by
    cases t with
    | nil => exact absurd rfl h
    | cons e es => exact ⟨e, es, rfl⟩
  unfold generateStringFile
  rw [List.map_cons]
  intro hh
  have hlen := congrArg String.length hh
  cases hes : (es.map (fun e => stringsLine e.1 e.2)) with
  | nil =>
      rw [hes] at hlen
      unfold joinLines at hlen
      rw [stringsLine_length] at hlen
      simp at hlen
  | cons y ys =>
      rw [hes] at hlen
      unfold joinLines at hlen
      rw [String.length_append, String.length_append, stringsLine_length] at hlen
      simp at hlen

/-! ## Localization loop lemmas -/

theorem objSet_isEmpty {α : Type} (o : ObjMap α) (k : String) (v : α) :
    (objSet o k v).isEmpty = false := by
  cases o with
  | nil => rfl
  | cons e es =>
      unfold objSet
      split <;> rfl

theorem mergeStringsStep_lookup_ne (lb : ObjMap BundleUnit) (lang : String)
    (t : ObjMap String) (dir' : String) (h : dir' ≠ lang ++ ".lproj") :
    objLookup (mergeStringsStep lb lang t) dir' = objLookup lb dir' := by
  unfold mergeStringsStep
  split
  · rfl
  · exact objLookup_objSet_ne _ _ h

theorem mergeStringsStep_lookup_self (lb : ObjMap BundleUnit) (lang : String)
    (t : ObjMap String) (b₀ : String)
    (hs : generateStringFile t ≠ "")
    (hts : templateStrings lb (lang ++ ".lproj") = .raw b₀) :
    objLookup (mergeStringsStep lb lang t) (lang ++ ".lproj") =
      some (objSet ((objLookup lb (lang ++ ".lproj")).getD []) "pass.strings"
        (.raw (b₀ ++ generateStringFile t))) := by
  unfold mergeStringsStep
  rw [if_neg hs, objLookup_objSet_self]
  rw [templateStrings_getD] at hts
  rw [hts, buffer_concat_raw]

theorem templateStrings_congr (lb lb' : ObjMap BundleUnit) (dir : String)
    (h : objLookup lb' dir = objLookup lb dir) :
    templateStrings lb' dir = templateStrings lb dir := by
  unfold templateStrings
  rw [h]

theorem nodup_unit_getD (lb : ObjMap BundleUnit) (dir : String)
    (hund : ∀ u, objLookup lb dir = some u → (objKeys u).Nodup) :
    (objKeys ((objLookup lb dir).getD [])).Nodup := by
  cases hv : objLookup lb dir with
  | some u => exact hund u hv
  | none => simp [objKeys]

theorem l10nLoop_fb_preserve :
    ∀ (L : ObjMap (ObjMap String)) (lb : ObjMap BundleUnit) (fb : BundleUnit) (k : String),
      (∀ lang ∈ objKeys L, ∀ fn, k ≠ (lang ++ ".lproj") ++ "/" ++ fn) →
      objLookup (l10nLoop lb fb L).1 k = objLookup fb k
  | [], _, _, _, _ => rfl
  | (lang, t) :: rest, lb, fb, k, h => by
      have hrest : ∀ l ∈ objKeys rest, ∀ fn, k ≠ (l ++ ".lproj") ++ "/" ++ fn :=
        fun l hl => h l (by rw [objKeys_cons]; exact List.mem_cons_of_mem _ hl)
      unfold l10nLoop
      split
      · exact l10nLoop_fb_preserve rest _ fb k hrest
      next unit hunit =>
        split
        · exact l10nLoop_fb_preserve rest _ fb k hrest
        · rw [l10nLoop_fb_preserve rest _ _ k hrest]
          exact foldl_objSet_lookup_preserve
            (fun fn => (lang ++ ".lproj") ++ "/" ++ fn) (fun b => b) k unit fb
            (fun e _ => h lang (by rw [objKeys_cons]; exact List.mem_cons_self _ _) e.1)

theorem l10nLoop_lb_preserve :
    ∀ (L : ObjMap (ObjMap String)) (lb : ObjMap BundleUnit) (fb : BundleUnit) (dir' : String),
      (∀ lang ∈ objKeys L, dir' ≠ lang ++ ".lproj") →
      objLookup (l10nLoop lb fb L).2 dir' = objLookup lb dir'
  | [], _, _, _, _ => rfl
  | (lang, t) :: rest, lb, fb, dir', h => by
      have hd : dir' ≠ lang ++ ".lproj" :=
        h lang (by rw [objKeys_cons]; exact List.mem_cons_self _ _)
      have hrest : ∀ l ∈ objKeys rest, dir' ≠ l ++ ".lproj" :=
        fun l hl => h l (by rw [objKeys_cons]; exact List.mem_cons_of_mem _ hl)
      unfold l10nLoop
      split
      · rw [l10nLoop_lb_preserve rest _ fb dir' hrest,
          mergeStringsStep_lookup_ne _ _ _ _ hd]
      next unit hunit =>
        split
        · rw [l10nLoop_lb_preserve rest _ fb dir' hrest,
            mergeStringsStep_lookup_ne _ _ _ _ hd]
        · rw [l10nLoop_lb_preserve rest _ _ dir' hrest,
            mergeStringsStep_lookup_ne _ _ _ _ hd]

theorem noSlash_lproj (lang : String) (h : noSlash lang = true) :
    noSlash (lang ++ ".lproj") = true :=
  noSlash_append lang ".lproj" h (by decide)

theorem lproj_path_ne (lang l : String) (hlang : noSlash lang = true)
    (hl : noSlash l = true) (hne : lang ≠ l) (r₁ r₂ : String) :
    (lang ++ ".lproj") ++ "/" ++ r₁ ≠ (l ++ ".lproj") ++ "/" ++ r₂ := by
  intro h
  obtain ⟨hd, _⟩ := path_inj (noSlash_lproj lang hlang) (noSlash_lproj l hl) h
  exact hne (lproj_inj hd)

theorem l10nLoop_lang (b₀ : String) :
    ∀ (L : ObjMap (ObjMap String)) (lb : ObjMap BundleUnit) (fb : BundleUnit)
      (lang : String) (t : ObjMap String),
      objLookup L lang = some t →
      (objKeys L).Nodup →
      (∀ l ∈ objKeys L, noSlash l = true) →
      generateStringFile t ≠ "" →
      (∀ u, objLookup lb (lang ++ ".lproj") = some u → (objKeys u).Nodup) →
      templateStrings lb (lang ++ ".lproj") = .raw b₀ →
      objLookup (l10nLoop lb fb L).1 ((lang ++ ".lproj") ++ "/" ++ "pass.strings") =
        some (.raw (b₀ ++ generateStringFile t)) ∧
      objLookup (l10nLoop lb fb L).2 (lang ++ ".lproj") =
        some (objSet ((objLookup lb (lang ++ ".lproj")).getD []) "pass.strings"
          (.raw (b₀ ++ generateStringFile t)))
  | [], _, _, _, _, hL, _, _, _, _, _ => by simp [objLookup] at hL
  | (l', t') :: rest, lb, fb, lang, t, hL, hnd, hns, hs, hund, hts => by
      rw [objKeys_cons] at hnd hns
      rw [objLookup_cons] at hL
      by_cases hl : l' = lang
      · subst hl
        rw [if_pos rfl] at hL
        obtain rfl := Option.some.inj hL
        have hlnotin : l' ∉ objKeys rest := (List.nodup_cons.mp hnd).1
        have hnsl : noSlash l' = true := hns l' (List.mem_cons_self _ _)
        have hmerged := mergeStringsStep_lookup_self lb l' t' b₀ hs hts
        have hpath : ∀ l ∈ objKeys rest, ∀ fn,
            (l' ++ ".lproj") ++ "/" ++ "pass.strings" ≠ (l ++ ".lproj") ++ "/" ++ fn := by
          intro l hl fn
          exact lproj_path_ne l' l hnsl (hns l (List.mem_cons_of_mem _ hl))
            (fun hh => hlnotin (hh ▸ hl)) _ _
        have hdir : ∀ l ∈ objKeys rest, l' ++ ".lproj" ≠ l ++ ".lproj" := by
          intro l hl hh
          exact hlnotin (lproj_inj hh ▸ hl)
        unfold l10nLoop
        split
        next hnone => rw [hmerged] at hnone; cases hnone
        next unit hunit =>
          rw [hmerged] at hunit
          obtain rfl := Option.some.inj hunit
          split
          next hempty => rw [objSet_isEmpty] at hempty; cases hempty
          next =>
            constructor
            · rw [l10nLoop_fb_preserve rest _ _ _ hpath]
              exact foldl_objSet_lookup_mem
                (fun fn => (l' ++ ".lproj") ++ "/" ++ fn) (fun b => b)
                (fun a b h => strAppend_left_cancel h) _ fb "pass.strings" _
                (nodup_objKeys_objSet _ _ _ (nodup_unit_getD lb _ hund))
                (objLookup_objSet_self _ _ _)
            · rw [l10nLoop_lb_preserve rest _ _ _ hdir]
              exact hmerged
      · rw [if_neg hl] at hL
        have hdirne : l' ++ ".lproj" ≠ lang ++ ".lproj" :=
          fun hh => hl (lproj_inj hh)
        have hlb : objLookup (mergeStringsStep lb l' t') (lang ++ ".lproj") =
            objLookup lb (lang ++ ".lproj") :=
          mergeStringsStep_lookup_ne lb l' t' _ (Ne.symm hdirne)
        have hund' : ∀ u, objLookup (mergeStringsStep lb l' t') (lang ++ ".lproj") = some u →
            (objKeys u).Nodup := by
          rw [hlb]; exact hund
        have hts' : templateStrings (mergeStringsStep lb l' t') (lang ++ ".lproj") = .raw b₀ :=
          (templateStrings_congr lb _ _ hlb).trans hts
        have hndr : (objKeys rest).Nodup := (List.nodup_cons.mp hnd).2
        have hnsr : ∀ l ∈ objKeys rest, noSlash l = true :=
          fun l hl' => hns l (List.mem_cons_of_mem _ hl')
        unfold l10nLoop
        split
        · obtain ⟨h1, h2⟩ := l10nLoop_lang b₀ rest _ fb lang t hL hndr hnsr hs hund' hts'
          exact ⟨h1, by rw [h2, hlb]⟩
        next unit hunit =>
          split
          · obtain ⟨h1, h2⟩ := l10nLoop_lang b₀ rest _ fb lang t hL hndr hnsr hs hund' hts'
            exact ⟨h1, by rw [h2, hlb]⟩
          · obtain ⟨h1, h2⟩ := l10nLoop_lang b₀ rest _ _ lang t hL hndr hnsr hs hund' hts'
            exact ⟨h1, by rw [h2, hlb]⟩

theorem mem_objKeys_of_lookup_some {α : Type} {o : ObjMap α} {k : String} {v : α}
    (h : objLookup o k = some v) : k ∈ objKeys o := by
  by_contra hc
  rw [← objLookup_eq_none_iff] at hc
  rw [h] at hc
  cases hc

theorem mergeStringsStep_empty (lb : ObjMap BundleUnit) (lang : String)
    (t : ObjMap String) (h : generateStringFile t = "") :
    mergeStringsStep lb lang t = lb := by
  unfold mergeStringsStep
  rw [if_pos h]

theorem l10nLoop_keys :
    ∀ (L : ObjMap (ObjMap String)) (lb : ObjMap BundleUnit) (fb : BundleUnit) (k : String),
      k ∈ objKeys (l10nLoop lb fb L).1 →
      k ∈ objKeys fb ∨ ∃ lang, lang ∈ objKeys L ∧ ∃ fn, k = (lang ++ ".lproj") ++ "/" ++ fn
  | [], _, _, _, h => Or.inl h
  | (lang, t) :: rest, lb, fb, k, h => by
      unfold l10nLoop at h
      split at h
      · rcases l10nLoop_keys rest _ fb k h with h' | ⟨l, hl, fn, hk⟩
        · exact Or.inl h'
        · exact Or.inr ⟨l, by rw [objKeys_cons]; exact List.mem_cons_of_mem _ hl, fn, hk⟩
      next unit hunit =>
        split at h
        · rcases l10nLoop_keys rest _ fb k h with h' | ⟨l, hl, fn, hk⟩
          · exact Or.inl h'
          · exact Or.inr ⟨l, by rw [objKeys_cons]; exact List.mem_cons_of_mem _ hl, fn, hk⟩
        · rcases l10nLoop_keys rest _ _ k h with h' | ⟨l, hl, fn, hk⟩
          · rcases mem_objKeys_foldl_objSet
              (fun fn => (lang ++ ".lproj") ++ "/" ++ fn) (fun b => b) unit fb k h'
              with h'' | ⟨e, _, hk⟩
            · exact Or.inl h''
            · exact Or.inr ⟨lang, by rw [objKeys_cons]; exact List.mem_cons_self _ _, e.1, hk⟩
          · exact Or.inr ⟨l, by rw [objKeys_cons]; exact List.mem_cons_of_mem _ hl, fn, hk⟩

theorem l10nLoop_empty_lang :
    ∀ (L : ObjMap (ObjMap String)) (lb : ObjMap BundleUnit) (fb : BundleUnit)
      (lang : String) (t : ObjMap String) (fn : String),
      objLookup L lang = some t →
      (objKeys L).Nodup →
      (∀ l ∈ objKeys L, noSlash l = true) →
      generateStringFile t = "" →
      (objLookup lb (lang ++ ".lproj") = none ∨ objLookup lb (lang ++ ".lproj") = some []) →
      objLookup (l10nLoop lb fb L).1 ((lang ++ ".lproj") ++ "/" ++ fn) =
        objLookup fb ((lang ++ ".lproj") ++ "/" ++ fn)
  | [], _, _, _, _, _, hL, _, _, _, _ => by simp [objLookup] at hL
  | (l', t') :: rest, lb, fb, lang, t, fn, hL, hnd, hns, hs, hlb => by
      rw [objKeys_cons] at hnd hns
      rw [objLookup_cons] at hL
      by_cases hl : l' = lang
      · subst hl
        rw [if_pos rfl] at hL
        obtain rfl := Option.some.inj hL
        have hlnotin : l' ∉ objKeys rest := (List.nodup_cons.mp hnd).1
        have hnsl : noSlash l' = true := hns l' (List.mem_cons_self _ _)
        have hpath : ∀ l ∈ objKeys rest, ∀ fn',
            (l' ++ ".lproj") ++ "/" ++ fn ≠ (l ++ ".lproj") ++ "/" ++ fn' := by
          intro l hl fn'
          exact lproj_path_ne l' l hnsl (hns l (List.mem_cons_of_mem _ hl))
            (fun hh => hlnotin (hh ▸ hl)) _ _
        unfold l10nLoop
        rw [mergeStringsStep_empty lb l' t' hs]
        rcases hlb with hlb | hlb
        · rw [hlb]
          exact l10nLoop_fb_preserve rest _ fb _ hpath
        · rw [hlb]
          show objLookup (if ([] : BundleUnit).isEmpty = true then
              (l10nLoop lb fb rest) else
              (l10nLoop lb (flattenUnit (l' ++ ".lproj") [] fb) rest)).1 _ = _
          simp only [List.isEmpty_nil, if_true]
          exact l10nLoop_fb_preserve rest _ fb _ hpath
      · rw [if_neg hl] at hL
        have hdirne : l' ++ ".lproj" ≠ lang ++ ".lproj" :=
          fun hh => hl (lproj_inj hh)
        have hlb' : objLookup (mergeStringsStep lb l' t') (lang ++ ".lproj") =
            objLookup lb (lang ++ ".lproj") :=
          mergeStringsStep_lookup_ne lb l' t' _ (Ne.symm hdirne)
        have hlbr : objLookup (mergeStringsStep lb l' t') (lang ++ ".lproj") = none ∨
            objLookup (mergeStringsStep lb l' t') (lang ++ ".lproj") = some [] := by
          rw [hlb']; exact hlb
        have hndr : (objKeys rest).Nodup := (List.nodup_cons.mp hnd).2
        have hnsr : ∀ l ∈ objKeys rest, noSlash l = true :=
          fun l hl' => hns l (List.mem_cons_of_mem _ hl')
        have hnsl' : noSlash l' = true := hns l' (List.mem_cons_self _ _)
        have hnslang : noSlash lang = true :=
          hns lang (List.mem_cons_of_mem _ (mem_objKeys_of_lookup_some hL))
        unfold l10nLoop
        split
        · exact l10nLoop_empty_lang rest _ fb lang t fn hL hndr hnsr hs hlbr
        next unit hunit =>
          split
          · exact l10nLoop_empty_lang rest _ fb lang t fn hL hndr hnsr hs hlbr
          · rw [l10nLoop_empty_lang rest _ _ lang t fn hL hndr hnsr hs hlbr]
            exact foldl_objSet_lookup_preserve _ (fun b => b) _ unit fb
              (fun e _ => lproj_path_ne lang l' hnslang hnsl' (fun hh => hl hh.symm) _ _)

/-! ## Pipeline inversions and pruning lemmas -/

theorem finalBundle_ok_elim {p : Pass} {fb : BundleUnit} {p' : Pass}
    (h : p.finalBundle = .ok (fb, p')) :
    ∃ pr, Pass._patch p = .ok pr ∧
      fb = (l10nLoop p.l10nBundles (bundleAfterPrune p pr) p.l10nTranslations.reverse).1 ∧
      p'.bundle = bundleAfterPrune p pr ∧
      p'.l10nBundles =
        (l10nLoop p.l10nBundles (bundleAfterPrune p pr) p.l10nTranslations.reverse).2 ∧
      p'.passProps = pr.2 ∧
      p'.l10nTranslations = p.l10nTranslations ∧
      p'.type = p.type ∧ p'.transitTy = p.transitTy ∧ p'.slots = p.slots := by
  unfold Pass.finalBundle at h
  split at h
  · exact absurd h (by simp)
  next pr hpr =>
    have hh := Except.ok.inj h
    have hfst := congrArg Prod.fst hh
    have hsnd := congrArg Prod.snd hh
    exact ⟨pr, hpr, hfst.symm, (congrArg Pass.bundle hsnd).symm,
      (congrArg Pass.l10nBundles hsnd).symm, (congrArg Pass.passProps hsnd).symm,
      (congrArg Pass.l10nTranslations hsnd).symm, (congrArg Pass.type hsnd).symm,
      (congrArg Pass.transitTy hsnd).symm, (congrArg Pass.slots hsnd).symm⟩

theorem generate_ok_elim {hash : Buffer → String} {sign : ObjMap String → Buffer}
    {p : Pass} {a : BundleUnit} {p' : Pass}
    (h : Pass.generate hash sign p = .ok (a, p')) :
    ∃ fb, p.finalBundle = .ok (fb, p') ∧
      a = fb ++ [("signature", sign (manifestFold hash fb)),
                 ("manifest.json", manifestJson (manifestFold hash fb))] := by
  unfold Pass.generate at h
  split at h
  · exact absurd h (by simp)
  next out hout =>
    obtain ⟨fb, p₂⟩ := out
    have hh := Except.ok.inj h
    have hfst := congrArg Prod.fst hh
    have hsnd := congrArg Prod.snd hh
    simp only at hfst hsnd
    refine ⟨fb, ?_, hfst.symm⟩
    rw [hout, hsnd]

theorem mem_objKeys_foldl_objDelete {α : Type} :
    ∀ (names : List String) (b : ObjMap α) (k : String),
      k ∈ objKeys (names.foldl (fun acc n => objDelete acc n) b) ↔
        k ∈ objKeys b ∧ k ∉ names
  | [], b, k => by simp
  | n :: ns, b, k => by
      rw [List.foldl_cons, mem_objKeys_foldl_objDelete ns _ k, mem_objKeys_objDelete]
      constructor
      · rintro ⟨⟨h1, h2⟩, h3⟩
        refine ⟨h1, ?_⟩
        rw [List.mem_cons, not_or]
        exact ⟨h2, h3⟩
      · rintro ⟨h1, h2⟩
        rw [List.mem_cons, not_or] at h2
        exact ⟨⟨h1, h2.1⟩, h2.2⟩

theorem lookup_foldl_objDelete_notMem {α : Type} :
    ∀ (names : List String) (b : ObjMap α) (k : String), k ∉ names →
      objLookup (names.foldl (fun acc n => objDelete acc n) b) k = objLookup b k
  | [], _, _, _ => rfl
  | n :: ns, b, k, h => by
      rw [List.foldl_cons,
        lookup_foldl_objDelete_notMem ns _ k (fun hh => h (List.mem_cons_of_mem _ hh)),
        objLookup_objDelete, if_neg (fun hh => h (by rw [hh]; exact List.mem_cons_self n ns))]

theorem deletePersonalization_lookup_passJson (b : BundleUnit) (files : List String) :
    objLookup (deletePersonalization b (getAllFilesWithName "personalizationLogo" files))
      "pass.json" = objLookup b "pass.json" := by
  unfold deletePersonalization
  apply lookup_foldl_objDelete_notMem
  intro h
  rcases List.mem_append.mp h with h | h
  · unfold getAllFilesWithName at h
    have := (List.mem_filter.mp h).2
    exact absurd (by simpa using this) (by decide)
  · exact absurd (List.mem_singleton.mp h) (by decide)

theorem bundleAfterPrune_lookup_passJson (p : Pass) (pr : Buffer × Obj) :
    objLookup (bundleAfterPrune p pr) "pass.json" = some pr.1 := by
  unfold bundleAfterPrune
  split
  · rw [deletePersonalization_lookup_passJson]
    unfold bundleAfterPatch
    exact objLookup_objSet_self _ _ _
  · unfold bundleAfterPatch
    exact objLookup_objSet_self _ _ _

theorem patchOverlay_fst_lookup_nonColor (props pf₀ : Obj) (k : String)
    (hk : k ∉ passColors) :
    objLookup (patchOverlay props pf₀).1 k = objLookup props k := by
  unfold patchOverlay
  split
  · rfl
  · exact filterColors_lookup_ne props k hk

theorem objKeys_reverse {α : Type} (o : ObjMap α) :
    objKeys o.reverse = (objKeys o).reverse := by
  unfold objKeys
  exact List.map_reverse _ _

/-! ## C6 — string-table merging and flattening -/

/-- C6: during `generate()`, (1) for every staged language with a non-empty
rendered string table, the final `<lang>.lproj/pass.strings` buffer is the
template's pre-existing `pass.strings` bytes for that language (empty if
none) followed by the newly rendered bytes, in that order; (2) a staged
language whose file set is empty after merging contributes no files to the
final bundle (every `<lang>.lproj/...` path resolves exactly as in the
pre-localization bundle); (3) every file of the final bundle is either a
root-bundle file or placed under a forward-slash `<langcode>.lproj/<file>`
path of a staged language.  Side conditions: staged language codes are
distinct and contain no path separator, and the template folders are
well-formed JS objects (no duplicate file names). -/
theorem l10n_merge_flatten :
    (∀ (p : Pass) (fb : BundleUnit) (p' : Pass) (lang : String)
      (t : ObjMap String) (b₀ : String),
      p.finalBundle = .ok (fb, p') →
      objLookup p.l10nTranslations lang = some t →
      (objKeys p.l10nTranslations).Nodup →
      (∀ l ∈ objKeys p.l10nTranslations, noSlash l = true) →
      generateStringFile t ≠ "" →
      (∀ u, objLookup p.l10nBundles (lang ++ ".lproj") = some u → (objKeys u).Nodup) →
      templateStrings p.l10nBundles (lang ++ ".lproj") = .raw b₀ →
      objLookup fb ((lang ++ ".lproj") ++ "/" ++ "pass.strings") =
        some (.raw (b₀ ++ generateStringFile t))) ∧
    (∀ (p : Pass) (fb : BundleUnit) (p' : Pass) (lang : String)
      (t : ObjMap String) (fn : String),
      p.finalBundle = .ok (fb, p') →
      objLookup p.l10nTranslations lang = some t →
      (objKeys p.l10nTranslations).Nodup →
      (∀ l ∈ objKeys p.l10nTranslations, noSlash l = true) →
      generateStringFile t = "" →
      (objLookup p.l10nBundles (lang ++ ".lproj") = none ∨
        objLookup p.l10nBundles (lang ++ ".lproj") = some []) →
      objLookup fb ((lang ++ ".lproj") ++ "/" ++ fn) =
        objLookup p'.bundle ((lang ++ ".lproj") ++ "/" ++ fn)) ∧
    (∀ (p : Pass) (fb : BundleUnit) (p' : Pass) (k : String),
      p.finalBundle = .ok (fb, p') →
      k ∈ objKeys fb →
      k ∈ objKeys p'.bundle ∨
        ∃ lang, lang ∈ objKeys p.l10nTranslations ∧
          ∃ fn, k = (lang ++ ".lproj") ++ "/" ++ fn) := by
  refine ⟨?_, ?_, ?_⟩
  · intro p fb p' lang t b₀ hfb ht hnd hns hs hund hts
    obtain ⟨pr, _, hfbe, _⟩ := finalBundle_ok_elim hfb
    have htrev : objLookup p.l10nTranslations.reverse lang = some t := by
      rw [objLookup_reverse _ hnd]
      exact ht
    have hndrev : (objKeys p.l10nTranslations.reverse).Nodup := by
      rw [objKeys_reverse, List.nodup_reverse]
      exact hnd
    have hnsrev : ∀ l ∈ objKeys p.l10nTranslations.reverse, noSlash l = true := by
      intro l hl
      rw [objKeys_reverse, List.mem_reverse] at hl
      exact hns l hl
    rw [hfbe]
    exact (l10nLoop_lang b₀ p.l10nTranslations.reverse p.l10nBundles
      (bundleAfterPrune p pr) lang t htrev hndrev hnsrev hs hund hts).1
  · intro p fb p' lang t fn hfb ht hnd hns hs hlb
    obtain ⟨pr, _, hfbe, hbun, _⟩ := finalBundle_ok_elim hfb
    have htrev : objLookup p.l10nTranslations.reverse lang = some t := by
      rw [objLookup_reverse _ hnd]
      exact ht
    have hndrev : (objKeys p.l10nTranslations.reverse).Nodup := by
      rw [objKeys_reverse, List.nodup_reverse]
      exact hnd
    have hnsrev : ∀ l ∈ objKeys p.l10nTranslations.reverse, noSlash l = true := by
      intro l hl
      rw [objKeys_reverse, List.mem_reverse] at hl
      exact hns l hl
    rw [hfbe, hbun]
    exact l10nLoop_empty_lang p.l10nTranslations.reverse p.l10nBundles
      (bundleAfterPrune p pr) lang t fn htrev hndrev hnsrev hs hlb
  · intro p fb p' k hfb hk
    obtain ⟨pr, _, hfbe, hbun, _⟩ := finalBundle_ok_elim hfb
    rw [hfbe] at hk
    rcases l10nLoop_keys p.l10nTranslations.reverse p.l10nBundles
        (bundleAfterPrune p pr) k hk with h | ⟨lang, hl, fn, hkk⟩
    · rw [hbun]
      exact Or.inl h
    · rw [objKeys_reverse, List.mem_reverse] at hl
      exact Or.inr ⟨lang, hl, fn, hkk⟩

/-- Witness pass for C6: template with a French string table, staged French
translations and an (empty) German staging. -/
def c6Pass : Pass :=
  match mkPass acceptAll
      { bundle := [("pass.json", .json (.obj [("storeCard", .obj [])])),
                   ("icon.png", .raw "I")],
        l10nBundle := [("fr.lproj", [("pass.strings", .raw "OLD")])] } [] with
  | .ok p => Pass.localize (Pass.localize p "fr" (some [("a", "b")])) "de" (some [])
  | .error _ => default

/-- The final bundle of the C6 witness pass. -/
def c6FB : BundleUnit :=
  match Pass.finalBundle c6Pass with
  | .ok pr => pr.1
  | .error _ => []

/-- The mutated instance of the C6 witness pass. -/
def c6P' : Pass :=
  match Pass.finalBundle c6Pass with
  | .ok pr => pr.2
  | .error _ => default

theorem l10n_merge_flatten_witness :
    objLookup c6FB (("fr" ++ ".lproj") ++ "/" ++ "pass.strings") =
      some (.raw ("OLD" ++ generateStringFile [("a", "b")])) ∧
    objLookup c6FB (("de" ++ ".lproj") ++ "/" ++ "pass.strings") =
      objLookup c6P'.bundle (("de" ++ ".lproj") ++ "/" ++ "pass.strings") ∧
    ((("fr" ++ ".lproj") ++ "/" ++ "pass.strings") ∈ objKeys c6P'.bundle ∨
      ∃ lang, lang ∈ objKeys c6Pass.l10nTranslations ∧
        ∃ fn, ("fr" ++ ".lproj") ++ "/" ++ "pass.strings" = (lang ++ ".lproj") ++ "/" ++ fn) :=
  ⟨l10n_merge_flatten.1 c6Pass c6FB c6P' "fr" [("a", "b")] "OLD" rfl rfl (by decide)
      (by decide) (by decide)
      (by intro u hu; injection hu with hu; rw [← hu]; decide) rfl,
   l10n_merge_flatten.2.1 c6Pass c6FB c6P' "de" [] "pass.strings" rfl rfl (by decide)
      (by decide) rfl (Or.inl rfl),
   l10n_merge_flatten.2.2 c6Pass c6FB c6P'
      (("fr" ++ ".lproj") ++ "/" ++ "pass.strings") rfl (by decide)⟩

/-! ## C3 — personalization pruning for non-NFC passes -/

/-- C3 (amended): whenever the merged properties declare no NFC payload and
the bundle contains `personalization.json`, the final archived file set of
`generate()` contains no `personalization.json` entry and no root-bundle
file whose name starts with `personalizationLogo`; any remaining archived
path starting with that prefix can only be a flattened localization path
`<lang>.lproj/<file>` of a staged language (the pruning never touches
flattened localization paths).  This holds on every `generate()` call. -/
theorem personalization_pruned_amended
    (p : Pass) (fb : BundleUnit) (p' : Pass)
    (hnfc : objLookup p.passProps "nfc" = none)
    (hpj : "personalization.json" ∈ objKeys p.bundle)
    (hfb : p.finalBundle = .ok (fb, p')) :
    "personalization.json" ∉ objKeys fb ∧
    (∀ k ∈ objKeys fb, strStartsWith k "personalizationLogo" = true →
      ∃ lang, lang ∈ objKeys p.l10nTranslations ∧
        ∃ fn, k = (lang ++ ".lproj") ++ "/" ++ fn) := by
  obtain ⟨pr, hpatch, hfbe, _⟩ := finalBundle_ok_elim hfb
  -- the pruned property bag still has no NFC payload
  have hnfc' : objLookup pr.2 "nfc" = none := by
    obtain ⟨_, v', _, _, _, _, _, hpr⟩ := patch_ok_elim hpatch
    rw [hpr]
    rw [patchOverlay_fst_lookup_nonColor _ _ _ (by decide)]
    exact hnfc
  have habs : nfcAbsent pr.2 = true := by
    unfold nfcAbsent
    rw [hnfc']
  have hpj₁ : "personalization.json" ∈ objKeys (bundleAfterPatch p pr) := by
    unfold bundleAfterPatch
    exact (mem_objKeys_objSet _ _ _ _).mpr (Or.inl hpj)
  have hcond : (nfcAbsent pr.2 &&
      (objKeys (bundleAfterPatch p pr)).contains "personalization.json") = true := by
    rw [habs, Bool.true_and]
    exact List.elem_iff.mpr hpj₁
  have hprune : bundleAfterPrune p pr =
      deletePersonalization (bundleAfterPatch p pr)
        (getAllFilesWithName "personalizationLogo" (objKeys (bundleAfterPatch p pr))) := by
    unfold bundleAfterPrune
    rw [if_pos hcond]
  constructor
  · intro hmem
    rw [hfbe] at hmem
    rcases l10nLoop_keys _ _ _ _ hmem with h | ⟨lang, _, fn, hkk⟩
    · rw [hprune] at h
      unfold deletePersonalization at h
      have := (mem_objKeys_foldl_objDelete _ _ _).mp h
      exact this.2 (List.mem_append.mpr (Or.inr (by simp)))
    · exact noSlash_ne_path "personalization.json" _ _ (by decide) hkk
  · intro k hk hpre
    rw [hfbe] at hk
    rcases l10nLoop_keys _ _ _ _ hk with h | ⟨lang, hl, fn, hkk⟩
    · exfalso
      rw [hprune] at h
      unfold deletePersonalization at h
      have hsplit := (mem_objKeys_foldl_objDelete _ _ _).mp h
      refine hsplit.2 (List.mem_append.mpr (Or.inl ?_))
      unfold getAllFilesWithName
      exact List.mem_filter.mpr ⟨hsplit.1, by simpa using hpre⟩
    · rw [objKeys_reverse, List.mem_reverse] at hl
      exact ⟨lang, hl, fn, hkk⟩

/-- C3 (counterexample): a non-NFC pass whose bundle holds
`personalization.json` and which stages translations for the (legal but
degenerate) language code `personalizationLogo`: pruning removes the
descriptor, yet the flattened localization path
`personalizationLogo.lproj/pass.strings` — which starts with the
`personalizationLogo` prefix — appears in the final archived file set,
refuting the claim as stated. -/
def c3Pass : Pass :=
  match mkPass acceptAll
      { bundle := [("pass.json", .json (.obj [("storeCard", .obj [])])),
                   ("icon.png", .raw "I"),
                   ("personalization.json", .raw "P")],
        l10nBundle := [] } [] with
  | .ok p => Pass.localize p "personalizationLogo" (some [("a", "b")])
  | .error _ => default

/-- The final bundle of the C3 counterexample pass. -/
def c3FB : BundleUnit :=
  match Pass.finalBundle c3Pass with
  | .ok pr => pr.1
  | .error _ => []

theorem personalization_pruned_counterexample :
    objLookup c3Pass.passProps "nfc" = none ∧
    "personalization.json" ∈ objKeys c3Pass.bundle ∧
    (Pass.finalBundle c3Pass).isOk = true ∧
    "personalizationLogo.lproj/pass.strings" ∈ objKeys c3FB ∧
    strStartsWith "personalizationLogo.lproj/pass.strings" "personalizationLogo" = true :=
  ⟨rfl, by decide, rfl, by decide, by decide⟩

/-- Witness pass for the amended C3: personalization descriptor and logo in
the bundle, no NFC payload, one ordinary staged language. -/
def c3wPass : Pass :=
  match mkPass acceptAll
      { bundle := [("pass.json", .json (.obj [("storeCard", .obj [])])),
                   ("icon.png", .raw "I"),
                   ("personalization.json", .raw "P"),
                   ("personalizationLogo.png", .raw "L")],
        l10nBundle := [] } [] with
  | .ok p => Pass.localize p "fr" (some [("a", "b")])
  | .error _ => default

/-- The final bundle of the C3 witness pass. -/
def c3wFB : BundleUnit :=
  match Pass.finalBundle c3wPass with
  | .ok pr => pr.1
  | .error _ => []

/-- The mutated instance of the C3 witness pass. -/
def c3wP' : Pass :=
  match Pass.finalBundle c3wPass with
  | .ok pr => pr.2
  | .error _ => default

theorem personalization_pruned_amended_witness :
    "personalization.json" ∉ objKeys c3wFB ∧
    (∀ k ∈ objKeys c3wFB, strStartsWith k "personalizationLogo" = true →
      ∃ lang, lang ∈ objKeys c3wPass.l10nTranslations ∧
        ∃ fn, k = (lang ++ ".lproj") ++ "/" ++ fn) :=
  personalization_pruned_amended c3wPass c3wFB c3wP' rfl (by decide) rfl

/-! ## C10 — generate() mutates the instance and is not idempotent -/

/-- C10: `generate()` mutates the instance in place: the patched
`pass.json` buffer is stored back into the instance's bundle, and the
rendered string-table bytes are appended into the instance's (shared)
localization bundle, so that for any instance with a non-empty staged
translation mapping for some language, a second `generate()` call produces
an archive whose `<lang>.lproj/pass.strings` buffer carries the rendered
translations twice (template bytes, then the rendered bytes appended once
per call) — `generate()` is not idempotent with respect to instance
state. -/
theorem generate_not_idempotent
    (hash : Buffer → String) (sign : ObjMap String → Buffer)
    (p : Pass) (lang : String) (t : ObjMap String) (b₀ : String)
    (a₁ a₂ : BundleUnit) (p₁ p₂ : Pass)
    (ht : objLookup p.l10nTranslations lang = some t)
    (hne : t ≠ [])
    (hnd : (objKeys p.l10nTranslations).Nodup)
    (hns : ∀ l ∈ objKeys p.l10nTranslations, noSlash l = true)
    (hund : ∀ u, objLookup p.l10nBundles (lang ++ ".lproj") = some u → (objKeys u).Nodup)
    (hts : templateStrings p.l10nBundles (lang ++ ".lproj") = .raw b₀)
    (h1 : Pass.generate hash sign p = .ok (a₁, p₁))
    (h2 : Pass.generate hash sign p₁ = .ok (a₂, p₂)) :
    (∃ pr, Pass._patch p = .ok pr ∧ objLookup p₁.bundle "pass.json" = some pr.1) ∧
    templateStrings p₁.l10nBundles (lang ++ ".lproj") =
      .raw (b₀ ++ generateStringFile t) ∧
    objLookup a₂ ((lang ++ ".lproj") ++ "/" ++ "pass.strings") =
      some (.raw ((b₀ ++ generateStringFile t) ++ generateStringFile t)) := by
  have hs : generateStringFile t ≠ "" := generateStringFile_ne_empty t hne
  obtain ⟨fb₁, hfb₁, _⟩ := generate_ok_elim h1
  obtain ⟨pr, hpatch, _, hbun, hl10n, _, htrans, _⟩ := finalBundle_ok_elim hfb₁
  have htrev : objLookup p.l10nTranslations.reverse lang = some t := by
    rw [objLookup_reverse _ hnd]
    exact ht
  have hndrev : (objKeys p.l10nTranslations.reverse).Nodup := by
    rw [objKeys_reverse, List.nodup_reverse]
    exact hnd
  have hnsrev : ∀ l ∈ objKeys p.l10nTranslations.reverse, noSlash l = true := by
    intro l hl
    rw [objKeys_reverse, List.mem_reverse] at hl
    exact hns l hl
  have hloop := l10nLoop_lang b₀ p.l10nTranslations.reverse p.l10nBundles
    (bundleAfterPrune p pr) lang t htrev hndrev hnsrev hs hund hts
  have hlb1 : objLookup p₁.l10nBundles (lang ++ ".lproj") =
      some (objSet ((objLookup p.l10nBundles (lang ++ ".lproj")).getD []) "pass.strings"
        (.raw (b₀ ++ generateStringFile t))) := by
    rw [hl10n]
    exact hloop.2
  have hts1 : templateStrings p₁.l10nBundles (lang ++ ".lproj") =
      .raw (b₀ ++ generateStringFile t) := by
    rw [templateStrings_getD, hlb1, Option.getD_some, objLookup_objSet_self,
      Option.getD_some]
  refine ⟨⟨pr, hpatch, ?_⟩, hts1, ?_⟩
  · rw [hbun]
    exact bundleAfterPrune_lookup_passJson p pr
  · obtain ⟨fb₂, hfb₂, ha₂⟩ := generate_ok_elim h2
    obtain ⟨pr₂, _, hfbe₂, _, _, _, _⟩ := finalBundle_ok_elim hfb₂
    have htrev₁ : objLookup p₁.l10nTranslations.reverse lang = some t := by
      rw [htrans, objLookup_reverse _ hnd]
      exact ht
    have hndrev₁ : (objKeys p₁.l10nTranslations.reverse).Nodup := by
      rw [htrans, objKeys_reverse, List.nodup_reverse]
      exact hnd
    have hnsrev₁ : ∀ l ∈ objKeys p₁.l10nTranslations.reverse, noSlash l = true := by
      intro l hl
      rw [htrans, objKeys_reverse, List.mem_reverse] at hl
      exact hns l hl
    have hund₁ : ∀ u, objLookup p₁.l10nBundles (lang ++ ".lproj") = some u →
        (objKeys u).Nodup := by
      intro u hu
      rw [hlb1] at hu
      obtain rfl := Option.some.inj hu
      exact nodup_objKeys_objSet _ _ _ (nodup_unit_getD _ _ hund)
    have hloop₂ := (l10nLoop_lang (b₀ ++ generateStringFile t) p₁.l10nTranslations.reverse
      p₁.l10nBundles (bundleAfterPrune p₁ pr₂) lang t htrev₁ hndrev₁ hnsrev₁ hs hund₁ hts1).1
    rw [ha₂]
    apply objLookup_append_left
    rw [hfbe₂]
    exact hloop₂

/-- Witness pass for C10: a store card with a French string table in the
template and staged French translations. -/
def c10Pass : Pass :=
  match mkPass acceptAll
      { bundle := [("pass.json", .json (.obj [("storeCard", .obj [])])),
                   ("icon.png", .raw "I")],
        l10nBundle := [("fr.lproj", [("pass.strings", .raw "OLD")])] } [] with
  | .ok p => Pass.localize p "fr" (some [("a", "b")])
  | .error _ => default

/-- Archive produced by the first generate() call on the C10 witness pass. -/
def c10A1 : BundleUnit :=
  match Pass.generate hashW signW c10Pass with
  | .ok pr => pr.1
  | .error _ => []

/-- Instance state after the first generate() call on the C10 witness pass. -/
def c10P1 : Pass :=
  match Pass.generate hashW signW c10Pass with
  | .ok pr => pr.2
  | .error _ => default

/-- Archive produced by the second generate() call on the C10 witness pass. -/
def c10A2 : BundleUnit :=
  match Pass.generate hashW signW c10P1 with
  | .ok pr => pr.1
  | .error _ => []

/-- Instance state after the second generate() call on the C10 witness pass. -/
def c10P2 : Pass :=
  match Pass.generate hashW signW c10P1 with
  | .ok pr => pr.2
  | .error _ => default

theorem generate_not_idempotent_witness :
    (∃ pr, Pass._patch c10Pass = .ok pr ∧
      objLookup c10P1.bundle "pass.json" = some pr.1) ∧
    templateStrings c10P1.l10nBundles ("fr" ++ ".lproj") =
      .raw ("OLD" ++ generateStringFile [("a", "b")]) ∧
    objLookup c10A2 (("fr" ++ ".lproj") ++ "/" ++ "pass.strings") =
      some (.raw (("OLD" ++ generateStringFile [("a", "b")]) ++
        generateStringFile [("a", "b")])) :=
  generate_not_idempotent hashW signW c10Pass "fr" [("a", "b")] "OLD"
    c10A1 c10A2 c10P1 c10P2 rfl (by decide) (by decide) (by decide)
    (by intro u hu; injection hu with hu; rw [← hu]; decide) rfl rfl rfl
